import Mathlib

/-!
Verification of the SCRAM fault-tree preprocessor and ZBDD engine
(repository sources: src/src/preprocessor.cc, src/src/zbdd.h,
src/src/event.cc, src/src/initializer.cc, src/tests/bench_theatre_tests.cc).

The development shallowly embeds the data model and the operations the
specification talks about.  Code present in the source snapshot is
translated from the sources; operations whose implementation files are
absent from the snapshot (the IGate primitives of boolean_graph, the ZBDD
Minimize, Subsume and enumeration bodies declared in zbdd.h, the cycle
detector of cycle.h) are modelled from the specification, as marked in
their doc comments.  Graph-shaped data is embedded as trees where sharing
does not matter (normalization, complement propagation) and as indexed
association lists where it does (Boolean optimization, multiple-definition
detection).
-/

namespace Scram


/-- Gate operators (boolean_graph.h enum, as used in preprocessor.cc). -/
inductive Operator where
  | kAndGate | kOrGate | kAtleastGate | kXorGate
  | kNotGate | kNandGate | kNorGate | kNullGate
deriving DecidableEq, Repr

/-- Gate states: Normal logic, constant 0 (Null), constant 1 (Unity). -/
inductive GState where
  | kNormalState | kNullState | kUnityState
deriving DecidableEq, Repr

/-- Modelled from the spec: the indexed gate of the Boolean graph
(boolean_graph implementation absent from the snapshot) — an operator, a
state, an optional vote number and the set of signed argument indices
(positive = as-is, negative = complement). -/
structure IGate where
  type : Operator
  state : GState
  vote : Int
  args : Finset Int
deriving DecidableEq

/-- Modelled from the spec: IGate::Nullify puts the gate in the
semantically-constant-0 state. -/
def IGate.nullify (g : IGate) : IGate := { g with state := .kNullState }

/-- Modelled from the spec: IGate::MakeUnity puts the gate in the
semantically-constant-1 state. -/
def IGate.makeUnity (g : IGate) : IGate := { g with state := .kUnityState }

/-- Preprocessor::ProcessConstantArg (preprocessor.cc): process constant
argument `arg` (a signed index) with effective state `state` inside `gate`;
`toErase` accumulates the indices scheduled for later erasure. Returns the
rewritten gate, the updated erase list, and whether control reached the
final `return true` (the gate became a constant). -/
def processConstantArg (gate : IGate) (arg : Int) (state : Bool)
    (toErase : List Int) : IGate × List Int × Bool :=
  if !state then
    match gate.type with
    | .kNorGate | .kXorGate | .kOrGate => (gate, toErase ++ [arg], false)
    | .kNullGate | .kAndGate => (gate.nullify, toErase, true)
    | .kNandGate | .kNotGate => (gate.makeUnity, toErase, true)
    | .kAtleastGate =>
      let te := toErase ++ [arg]
      let k : Int := gate.vote
      let n : Int := (gate.args.card : Int) - (te.length : Int)
      (if k = n then { gate with type := .kAndGate } else gate, te, false)
  else
    match gate.type with
    | .kNullGate | .kOrGate => (gate.makeUnity, toErase, true)
    | .kNandGate | .kAndGate => (gate, toErase ++ [arg], false)
    | .kNorGate | .kNotGate => (gate.nullify, toErase, true)
    | .kXorGate =>
      if toErase.length = 1 then (gate.makeUnity, toErase, true)
      else ({ gate with type := .kNotGate }, toErase ++ [arg], false)
    | .kAtleastGate =>
      let k : Int := gate.vote - 1
      let g2 := if k = 1 then { gate with type := .kOrGate } else gate
      ({ g2 with vote := k }, toErase ++ [arg], false)

/-- The per-operator table of the claim exactly as stated: in particular NOT and
NULL parents are grouped together, becoming Unity on a False argument and
Null on a True argument. -/
def claimConstantArgTable (gate : IGate) (arg : Int) (state : Bool)
    (toErase : List Int) : IGate × List Int × Bool :=
  match gate.type, state with
  | .kOrGate, false => (gate, toErase ++ [arg], false)
  | .kNorGate, false => (gate, toErase ++ [arg], false)
  | .kOrGate, true => (gate.makeUnity, toErase, true)
  | .kNorGate, true => (gate.nullify, toErase, true)
  | .kAndGate, false => (gate.nullify, toErase, true)
  | .kNandGate, false => (gate.makeUnity, toErase, true)
  | .kAndGate, true => (gate, toErase ++ [arg], false)
  | .kNandGate, true => (gate, toErase ++ [arg], false)
  | .kNotGate, false => (gate.makeUnity, toErase, true)
  | .kNullGate, false => (gate.makeUnity, toErase, true)
  | .kNotGate, true => (gate.nullify, toErase, true)
  | .kNullGate, true => (gate.nullify, toErase, true)
  | .kXorGate, false => (gate, toErase ++ [arg], false)
  | .kXorGate, true =>
    if toErase.length = 1 then (gate.makeUnity, toErase, true)
    else ({ gate with type := .kNotGate }, toErase ++ [arg], false)
  | .kAtleastGate, false =>
    let te := toErase ++ [arg]
    (if gate.vote = (gate.args.card : Int) - (te.length : Int)
      then { gate with type := .kAndGate } else gate, te, false)
  | .kAtleastGate, true =>
    let k : Int := gate.vote - 1
    let g2 := if k = 1 then { gate with type := .kOrGate } else gate
    ({ g2 with vote := k }, toErase ++ [arg], false)

/-- The amended table: as the claim states it except that a NULL (pass-through)
parent becomes Null on a False argument and Unity on a True argument. -/
def amendedConstantArgTable (gate : IGate) (arg : Int) (state : Bool)
    (toErase : List Int) : IGate × List Int × Bool :=
  match gate.type, state with
  | .kOrGate, false => (gate, toErase ++ [arg], false)
  | .kNorGate, false => (gate, toErase ++ [arg], false)
  | .kOrGate, true => (gate.makeUnity, toErase, true)
  | .kNorGate, true => (gate.nullify, toErase, true)
  | .kAndGate, false => (gate.nullify, toErase, true)
  | .kNandGate, false => (gate.makeUnity, toErase, true)
  | .kAndGate, true => (gate, toErase ++ [arg], false)
  | .kNandGate, true => (gate, toErase ++ [arg], false)
  | .kNotGate, false => (gate.makeUnity, toErase, true)
  | .kNullGate, false => (gate.nullify, toErase, true)
  | .kNotGate, true => (gate.nullify, toErase, true)
  | .kNullGate, true => (gate.makeUnity, toErase, true)
  | .kXorGate, false => (gate, toErase ++ [arg], false)
  | .kXorGate, true =>
    if toErase.length = 1 then (gate.makeUnity, toErase, true)
    else ({ gate with type := .kNotGate }, toErase ++ [arg], false)
  | .kAtleastGate, false =>
    let te := toErase ++ [arg]
    (if gate.vote = (gate.args.card : Int) - (te.length : Int)
      then { gate with type := .kAndGate } else gate, te, false)
  | .kAtleastGate, true =>
    let k : Int := gate.vote - 1
    let g2 := if k = 1 then { gate with type := .kOrGate } else gate
    ({ g2 with vote := k }, toErase ++ [arg], false)

/-- The effective-state computation of the callers (PropagateConstants,
PropagateConstGate in preprocessor.cc): a negative signed index flips the
constant state. -/
def effectiveState (state : Bool) (signedIndex : Int) : Bool :=
  if signedIndex < 0 then !state else state

inductive Zdd where
  | empty : Zdd
  | base : Zdd
  | node : Nat → Zdd → Zdd → Zdd
deriving DecidableEq, Repr

namespace Zdd

def sets : Zdd → Finset (Finset Nat)
  | .empty => ∅
  | .base => {∅}
  | .node v hi lo => (sets hi).image (insert v) ∪ sets lo

def varsAbove (v : Nat) : Zdd → Bool
  | .empty => true
  | .base => true
  | .node w hi lo => decide (v < w) && varsAbove v hi && varsAbove v lo

def OrderedZ : Zdd → Bool
  | .empty => true
  | .base => true
  | .node v hi lo => varsAbove v hi && varsAbove v lo && OrderedZ hi && OrderedZ lo

def mkNode (v : Nat) (hi lo : Zdd) : Zdd :=
  if hi = .empty then lo else .node v hi lo

def hasEmptySet : Zdd → Bool
  | .empty => false
  | .base => true
  | .node _ _ lo => hasEmptySet lo

def subsume : Zdd → Zdd → Zdd
  | .empty, _ => .empty
  | h, .empty => h
  | _, .base => .empty
  | .base, .node _ _ lo => subsume .base lo
  | .node x h1 h0, .node y l1 l0 =>
    if x = y then
      mkNode x (subsume (subsume h1 l1) l0) (subsume h0 l0)
    else if x < y then
      mkNode x (subsume h1 (.node y l1 l0)) (subsume h0 (.node y l1 l0))
    else
      subsume (.node x h1 h0) l0
termination_by h l => (sizeOf l, sizeOf h)

def minimize : Zdd → Zdd
  | .empty => .empty
  | .base => .base
  | .node v hi lo => mkNode v (subsume (minimize hi) (minimize lo)) (minimize lo)

/-- Modelled from the spec: the GenerateCutSets enumeration - terminals give
the empty family for Empty and the singleton empty set for Base; a set node
prepends its variable to the high-branch sets and appends the low ones. -/

def generateCutSets : Zdd → List (Finset Nat)
  | .empty => []
  | .base => [∅]
  | .node v hi lo => (generateCutSets hi).map (insert v) ++ generateCutSets lo

end Zdd

/-- A Boolean-graph node viewed as a tree: a signed variable leaf or a signed
gate with operator, vote number and argument subtrees.  The stored Bool is
the sign of the edge pointing at this node (true = positive). -/
inductive BT where
  | var : Bool → Nat → BT
  | gate : Bool → Operator → Nat → List BT → BT

namespace BT

/-- IGate::InvertArg / InvertArgs on one edge: flip the sign. -/
def flipSign : BT → BT
  | .var s i => .var (!s) i
  | .gate s o v args => .gate (!s) o v args

/-- One step of NotifyParentsOfNegativeGates: the parent inverts the sign of
an argument edge leading to a NOR, NAND or NOT gate. -/
def flipIfNegType : BT → BT
  | .var s i => .var s i
  | .gate s o v args =>
    match o with
    | .kNorGate | .kNandGate | .kNotGate => .gate (!s) o v args
    | _ => .gate s o v args

/-- Preprocessor::NotifyParentsOfNegativeGates (preprocessor.cc): bottom-up,
then flip the edges to NOR/NAND/NOT children. -/
def notifyNeg : BT → BT
  | .var s i => .var s i
  | .gate s o v args =>
    .gate s o v (args.attach.map (fun x => flipIfNegType (notifyNeg x.1)))
termination_by t => sizeOf t
decreasing_by
  have h := List.sizeOf_lt_of_mem x.2
  simp_wf
  omega

/-- Preprocessor::NormalizeXorGate: XOR(a,b) becomes
OR( AND(a, not b), AND(not a, b) ) with two fresh positive AND gates. -/
def normalizeXor (s : Bool) (v : Nat) (args : List BT) : BT :=
  match args with
  | [a, b] =>
    .gate s .kOrGate v
      [.gate true .kAndGate 0 [a, flipSign b],
        .gate true .kAndGate 0 [flipSign a, b]]
  | _ => .gate s .kOrGate v args

/-- Preprocessor::NormalizeAtleastGate: ATLEAST(k, args) retypes to AND when
the argument count equals k, to OR when k is 1, and otherwise expands to
OR( AND(first, ATLEAST(k-1, rest)), ATLEAST(k, rest) ) recursively. -/
def normalizeAtleast : Bool → Nat → List BT → BT
  | s, k, args =>
    if args.length = k then .gate s .kAndGate k args
    else if k = 1 then .gate s .kOrGate k args
    else
      match args with
      | [] => .gate s .kAndGate k []
      | a :: rest =>
        .gate s .kOrGate k
          [.gate true .kAndGate 0 [a, normalizeAtleast true (k - 1) rest],
            normalizeAtleast true k rest]
termination_by _ _ args => args.length
decreasing_by all_goals simp

/-- Preprocessor::NormalizeGate: post-order retyping into AND/OR/NULL form,
with XOR and ATLEAST expansion (negative gate types already notified). -/
def normalizeGate : BT → BT
  | .var s i => .var s i
  | .gate s o v args =>
    let as := args.attach.map (fun x => normalizeGate x.1)
    match o with
    | .kNotGate => .gate s .kNullGate v as
    | .kNorGate => .gate s .kOrGate v as
    | .kOrGate => .gate s .kOrGate v as
    | .kNandGate => .gate s .kAndGate v as
    | .kAndGate => .gate s .kAndGate v as
    | .kXorGate => normalizeXor s v as
    | .kAtleastGate => normalizeAtleast s v as
    | .kNullGate => .gate s .kNullGate v as
termination_by t => sizeOf t
decreasing_by
  have h := List.sizeOf_lt_of_mem x.2
  simp_wf
  omega

/-- IGate::JoinNullGate applied by a parent: a NULL-type child with a single
argument is replaced by that argument, multiplying the edge signs. -/
def joinNullElim : BT → BT
  | .gate s .kNullGate _ [c] => if s then c else flipSign c
  | t => t

/-- Preprocessor::RemoveNullGates / PropagateNullGate on non-root gates:
bottom-up elimination of single-argument NULL-type gates. -/
def removeNull : BT → BT
  | .var s i => .var s i
  | .gate s o v args =>
    .gate s o v (args.attach.map (fun x => joinNullElim (removeNull x.1)))
termination_by t => sizeOf t
decreasing_by
  have h := List.sizeOf_lt_of_mem x.2
  simp_wf
  omega

/-- The root special case of Preprocessor::ProcessFaultTree: a Normal-state
NULL-type root whose single argument is a gate is discarded; that argument
becomes the root (with a positive edge) and the implicit root sign picks up
the sign of the argument edge. -/
def processNullRoot : Int → BT → Int × BT
  | rs, .gate _ .kNullGate _ [.gate s2 o2 v2 a2] =>
    (rs * (if s2 then 1 else -1), .gate true o2 v2 a2)
  | rs, t => (rs, t)

/-- Complementation swaps AND and OR (other types are untouched here; the
code asserts they cannot occur). -/
def flipAndOr : Operator → Operator
  | .kOrGate => .kAndGate
  | .kAndGate => .kOrGate
  | o => o

mutual

/-- Preprocessor::PropagateComplements: a negative argument edge to a gate is
replaced by a positive edge to the complemented gate (opposite operator,
inverted argument signs), recursively; `propCompArg` handles one argument
edge of the parent. -/
def propComp : BT → BT
  | .var s i => .var s i
  | .gate s o v args => .gate s o v (args.attach.map (fun x => propCompArg x.1))
termination_by t => (sizeOf t, 0)
decreasing_by
  have h := List.sizeOf_lt_of_mem x.2
  simp_wf
  apply Prod.Lex.left
  omega

def propCompArg : BT → BT
  | .var s2 i => .var s2 i
  | .gate s2 o2 v2 a2 =>
    if s2 then propComp (.gate s2 o2 v2 a2)
    else propComp (.gate true (flipAndOr o2) v2 (a2.map flipSign))
termination_by t => (sizeOf t, 1)
decreasing_by
  · simp_wf
    apply Prod.Lex.right
    omega
  · have ho : ∀ o : Operator, sizeOf (flipAndOr o) = sizeOf o := by
      intro o; cases o <;> rfl
    have hflip : ∀ t : BT, sizeOf (flipSign t) = sizeOf t := by
      intro t
      cases t with
      | var s3 i3 => cases s3 <;> rfl
      | gate s3 o3 v3 a3 => cases s3 <;> rfl
    have hsz : ∀ l : List BT, sizeOf (List.map flipSign l) = sizeOf l := by
      intro l
      induction l with
      | nil => rfl
      | cons hd tl ih => simp [hflip, ih]
    simp_wf
    simp only [ho, hsz]
    apply Prod.Lex.right
    omega

end

/-- NormalizeGates root handling: a NOR/NAND/NOT root flips the implicit
root sign. -/
def rootSignAfterNormalize : BT → Int
  | .gate _ o _ _ =>
    match o with
    | .kNorGate | .kNandGate | .kNotGate => -1
    | _ => 1
  | _ => 1

/-- The normalization stage of ProcessFaultTree: negative-gate notification,
gate normalization, NULL-gate removal. -/
def normalizePass (t : BT) : BT := removeNull (normalizeGate (notifyNeg t))

/-- The complement-propagation stage of ProcessFaultTree: a negative root
sign flips an AND/OR root and inverts its argument signs, then complements
are pushed out of all gate edges. -/
def complementPass (rs : Int) (t : BT) : BT :=
  let t2 := if rs < 0 then
      match t with
      | .gate s o v args => .gate s (flipAndOr o) v (args.map flipSign)
      | x => x
    else t
  propComp t2

/-- ProcessFaultTree from constant-free input up to the end of complement
propagation. -/
def preprocessToComplements (t : BT) : BT :=
  let rs := rootSignAfterNormalize t
  let t1 := normalizePass t
  let p := processNullRoot rs t1
  complementPass p.1 p.2

/-- The operator is AND, OR or NULL. -/
def isNormalType : Operator → Bool
  | .kAndGate | .kOrGate | .kNullGate => true
  | _ => false

/-- The edge to this node is positive whenever the node is a gate. -/
def argEdgeOk : BT → Bool
  | .var _ _ => true
  | .gate s2 _ _ _ => s2

/-- Every gate in the tree has type AND, OR or NULL. -/
def typesOk : BT → Bool
  | .var _ _ => true
  | .gate _ o _ args =>
    isNormalType o && (args.attach.map (fun x => typesOk x.1)).all id
termination_by t => sizeOf t
decreasing_by
  have h := List.sizeOf_lt_of_mem x.2
  simp_wf
  omega

/-- No argument edge leading to a gate carries a complement. -/
def gateEdgesPos : BT → Bool
  | .var _ _ => true
  | .gate _ _ _ args =>
    (args.attach.map (fun x => argEdgeOk x.1 && gateEdgesPos x.1)).all id
termination_by t => sizeOf t
decreasing_by
  have h := List.sizeOf_lt_of_mem x.2
  simp_wf
  omega

/-- Evaluation of a node under an assignment of the variables
(the semantics of the operators, spec data model). -/
def evalBT (env : Nat → Bool) : BT → Bool
  | .var s i => if s then env i else !env i
  | .gate s o v args =>
    let vals := args.attach.map (fun x => evalBT env x.1)
    let r := match o with
      | .kAndGate => vals.all id
      | .kNandGate => !vals.all id
      | .kOrGate => vals.any id
      | .kNorGate => !vals.any id
      | .kNullGate => vals.all id
      | .kNotGate => !vals.all id
      | .kXorGate => vals.foldl xor false
      | .kAtleastGate => decide (v ≤ vals.count true)
    if s then r else !r
termination_by t => sizeOf t
decreasing_by
  have h := List.sizeOf_lt_of_mem x.2
  simp_wf
  omega

/-- Structural induction along the argument lists of the tree. -/
def indOn {motive : BT → Prop}
    (hv : ∀ s i, motive (.var s i))
    (hg : ∀ s o v args, (∀ a ∈ args, motive a) → motive (.gate s o v args)) :
    ∀ t, motive t
  | .var s i => hv s i
  | .gate s o v args => hg s o v args (fun a ha => indOn hv hg a)
termination_by t => sizeOf t
decreasing_by
  have h := List.sizeOf_lt_of_mem ha
  simp_wf
  omega

/-- Example environment for the C5 witness. -/
def ex5env : Nat → Bool := fun i => decide (i ≤ 1)

end BT

/-- Modelled from the spec: IGate::AddArg — a same-signed duplicate is
rejected, an opposite-signed duplicate constant-folds the gate per the
annihilator of the operator, otherwise the signed index is inserted. -/
def IGate.addArg (g : IGate) (idx : Int) : IGate :=
  if idx ∈ g.args then g
  else if -idx ∈ g.args then
    match g.type with
    | .kAndGate | .kNorGate | .kAtleastGate => g.nullify
    | _ => g.makeUnity
  else { g with args := insert idx g.args }

/-- The indexed Boolean graph: an association list from gate index to gate
data plus the root index.  Signed argument indices whose absolute value is
not a gate index denote variables. -/
structure BGraph where
  gates : List (Nat × IGate)
  root : Nat
deriving DecidableEq

def getGate (g : BGraph) (i : Nat) : Option IGate :=
  (g.gates.find? (fun p => p.1 = i)).map (fun p => p.2)

def isGateIndex (g : BGraph) (i : Nat) : Bool :=
  (g.gates.find? (fun p => p.1 = i)).isSome

/-- The parents of node `i`: gates holding `i` or `-i` among their signed
arguments (in graph order). -/
def parentsOf (g : BGraph) (i : Nat) : List Nat :=
  (g.gates.filter (fun p =>
    decide ((i : Int) ∈ p.2.args) || decide (-(i : Int) ∈ p.2.args))).map
    (fun p => p.1)

/-- The gate arguments of a gate: the gate indices of the graph referenced
(positively or negatively) by the gate, in graph order. -/
def gateArgsOf (g : BGraph) (gd : IGate) : List Nat :=
  g.gates.filterMap (fun p =>
    if (p.1 : Int) ∈ gd.args ∨ -(p.1 : Int) ∈ gd.args then some p.1 else none)

/-- Traversal state of the Boolean-optimization pass: the opti values and
the per-gate count of failed arguments. -/
structure OptState where
  opti : List (Nat × Nat)
  numFailed : List (Nat × Nat)
deriving DecidableEq

def optiOf (st : OptState) (i : Nat) : Nat :=
  ((st.opti.find? (fun p => p.1 = i)).map (fun p => p.2)).getD 0

def setOpti (st : OptState) (i v : Nat) : OptState :=
  { st with opti := (i, v) :: st.opti }

def numFailedOf (st : OptState) (i : Nat) : Nat :=
  ((st.numFailed.find? (fun p => p.1 = i)).map (fun p => p.2)).getD 0

/-- Modelled from the spec: IGate::ArgFailed — one more argument of gate `i`
failed; the gate itself fails (opti value 1) once the criterion of its operator
is met: OR any failed child, AND all children failed, ATLEAST vote-number
children failed. -/
def argFailed (g : BGraph) (st : OptState) (i : Nat) : OptState :=
  match getGate g i with
  | none => st
  | some gd =>
    let st2 := { st with numFailed := (i, numFailedOf st i + 1) :: st.numFailed }
    let n := numFailedOf st2 i
    let failed : Bool :=
      match gd.type with
      | .kOrGate => decide (1 ≤ n)
      | .kAndGate => decide (n = gd.args.card)
      | .kAtleastGate => decide ((n : Int) = gd.vote)
      | _ => false
    if failed then setOpti st2 i 1 else st2

/-- Preprocessor::PropagateFailure: push the failure of `node` up through its
parents; a parent that fails contributes its parent count to the returned
multiplicity when that count exceeds one, and propagates further. -/
def propagateFailure (g : BGraph) : Nat → OptState → Nat → OptState × Nat
  | 0, st, _ => (st, 0)
  | fuel + 1, st, node =>
    (parentsOf g node).foldl
      (fun (acc : OptState × Nat) p =>
        if optiOf acc.1 p = 1 then acc
        else
          let st2 := argFailed g acc.1 p
          if optiOf st2 p = 1 then
            let pm := (parentsOf g p).length
            let r := propagateFailure g fuel st2 p
            (r.1, acc.2 + (if 1 < pm then pm else 0) + r.2)
          else (st2, acc.2))
      (st, 0)

/-- Preprocessor::CollectFailureDestinations: walk down from the root through
non-failed gates (marking them 3 when they hold `index` as a direct argument,
2 otherwise) and collect the failed gates other than `index` that are seen
from them. -/
def collectDest (g : BGraph) :
    Nat → OptState → Nat → Nat → List Nat → OptState × List Nat × Nat
  | 0, st, _, _, dest => (st, dest, 0)
  | fuel + 1, st, gi, index, dest =>
    match getGate g gi with
    | none => (st, dest, 0)
    | some gd =>
      let st2 :=
        if (index : Int) ∈ gd.args then setOpti st gi 3 else setOpti st gi 2
      (gateArgsOf g gd).foldl
        (fun (acc : OptState × List Nat × Nat) ai =>
          if optiOf acc.1 ai = 0 then
            let r := collectDest g fuel acc.1 ai index acc.2.1
            (r.1, r.2.1, acc.2.2 + r.2.2)
          else if optiOf acc.1 ai = 1 ∧ ai ≠ index then
            (acc.1, (if ai ∈ acc.2.1 then acc.2.1 else acc.2.1 ++ [ai]),
              acc.2.2 + 1)
          else acc)
        (st2, dest, 0)

def isOrGate (g : BGraph) (i : Nat) : Bool :=
  match getGate g i with
  | some gd => gd.type = .kOrGate
  | none => false

/-- The selection loop of Preprocessor::ProcessRedundantParents: parents with
opti value below 3 are redundant, except OR parents registered as failure
destinations, which are instead dropped from the destination set. -/
def selectRedundant (g : BGraph) (st : OptState) (node : Nat)
    (dest : List Nat) : List Nat × List Nat :=
  (parentsOf g node).foldl
    (fun (acc : List Nat × List Nat) p =>
      if optiOf st p < 3 then
        if isOrGate g p && decide (p ∈ acc.2) then (acc.1, acc.2.erase p)
        else (acc.1 ++ [p], acc.2)
      else acc)
    ([], dest)

/-- The rewrite of one redundant parent (the node acts as constant False):
AND parents are nullified; OR parents drop the argument, degenerating to a
NULL-type gate at one remaining argument; ATLEAST parents drop the argument,
degenerating to AND when the count reaches the vote number. -/
def rewriteRedundant (gd : IGate) (node : Nat) : IGate :=
  match gd.type with
  | .kAndGate => gd.nullify
  | .kOrGate =>
    let g2 : IGate := { gd with args := gd.args.erase (node : Int) }
    if g2.args.card = 1 then { g2 with type := .kNullGate } else g2
  | .kAtleastGate =>
    let g2 : IGate := { gd with args := gd.args.erase (node : Int) }
    if (g2.args.card : Int) = g2.vote then { g2 with type := .kAndGate } else g2
  | _ => gd

def applyRedundant (g : BGraph) (node : Nat) (red : List Nat) : BGraph :=
  { g with gates := g.gates.map (fun p =>
      if p.1 ∈ red then (p.1, rewriteRedundant p.2 node) else p) }

def insertSortedNat (a : Nat) : List Nat → List Nat
  | [] => [a]
  | b :: l => if a ≤ b then a :: b :: l else b :: insertSortedNat a l

/-- Ascending order of the destination map (std::map iteration order). -/
def sortNat (l : List Nat) : List Nat := l.foldr insertSortedNat []

def freshIndex (g : BGraph) : Nat :=
  (g.gates.map (fun p => p.1)).foldl max 0 + 1

/-- Preprocessor::ProcessFailureDestinations: OR destinations gain the node
as a direct argument; AND/ATLEAST destinations are cloned and replaced by
OR(clone, node). -/
def processFailureDest (g : BGraph) (node : Nat) (dest : List Nat) : BGraph :=
  (sortNat dest).foldl
    (fun g2 t =>
      match getGate g2 t with
      | none => g2
      | some gd =>
        match gd.type with
        | .kOrGate =>
          { g2 with gates := g2.gates.map (fun p =>
              if p.1 = t then (p.1, p.2.addArg (node : Int)) else p) }
        | .kAndGate | .kAtleastGate =>
          let ni := freshIndex g2
          let clone : IGate := ⟨gd.type, .kNormalState, gd.vote, gd.args⟩
          let newTarget : IGate :=
            ⟨.kOrGate, gd.state, gd.vote, {(ni : Int), (node : Int)}⟩
          { g2 with gates := (g2.gates.map (fun p =>
              if p.1 = t then (p.1, newTarget) else p)) ++ [(ni, clone)] }
        | _ => g2)
    g

def initOptState (node : Nat) : OptState := ⟨[(node, 1)], []⟩

def failurePropagation (g : BGraph) (node : Nat) : OptState × Nat :=
  propagateFailure g (g.gates.length + 1) (initOptState node) node

/-- The total multiplicity of a common node: its parent count plus the
contributions of the failed ancestors. -/
def multTotOf (g : BGraph) (node : Nat) : Nat :=
  (parentsOf g node).length + (failurePropagation g node).2

/-- The destination search from the root (the root itself when it failed). -/
def destData (g : BGraph) (node : Nat) : OptState × List Nat × Nat :=
  let st1 := (failurePropagation g node).1
  if optiOf st1 g.root = 1 then (st1, [g.root], 1)
  else collectDest g (g.gates.length + 1) st1 g.root node []

def numDestOf (g : BGraph) (node : Nat) : Nat := (destData g node).2.2

/-- Preprocessor::ProcessCommonNode up to the redundancy rewrite (the final
re-run of constant propagation when a parent became constant is outside this
model).  The Bool records whether the redundancy rewrite was invoked. -/
def processCommonNode (g : BGraph) (node : Nat) : Bool × BGraph :=
  if (parentsOf g node).length ≤ 1 then (false, g)
  else if (destData g node).2.2 = 0 then (false, g)
  else if (destData g node).2.2 < multTotOf g node then
    (true,
      processFailureDest
        (applyRedundant g node
          (selectRedundant g (destData g node).1 node
            (destData g node).2.1).1)
        node
        (selectRedundant g (destData g node).1 node
          (destData g node).2.1).2)
  else (false, g)

/-- The comparison loop of Preprocessor::DetectMultipleDefinitions: scan the
already-seen originals for one with the same operator and the same signed
argument set, vote numbers also matching for ATLEAST gates. -/
def findOriginalGate (seen : List (Nat × IGate)) (gd : IGate) :
    Option (Nat × IGate) :=
  seen.find? (fun q =>
    decide (q.2.type = gd.type) && decide (q.2.args = gd.args)
      && (!(decide (gd.type = .kAtleastGate)) || decide (q.2.vote = gd.vote)))

/-- The equivalence criterion of the claim, as the spec words it. -/
def specEquivalent (a b : IGate) : Prop :=
  a.type = b.type ∧ a.args = b.args
    ∧ (a.type = .kAtleastGate → a.vote = b.vote)

/-- The replacement step of Preprocessor::ProcessMultipleDefinitions inside
one parent: guess the sign of the duplicate argument, erase it and add the
canonical original under the same sign. -/
def replaceDupInParent (parent : IGate) (dupIdx origIdx : Nat) : IGate :=
  let sign : Int := if -(dupIdx : Int) ∈ parent.args then -1 else 1
  let p2 : IGate := { parent with args := parent.args.erase (sign * dupIdx) }
  p2.addArg (sign * origIdx)

/-- Traversal state of multiple-definition detection. -/
structure MDState where
  marks : List Nat
  seen : List (Nat × IGate)
  dups : List (Nat × Nat)
deriving DecidableEq

/-- Preprocessor::DetectMultipleDefinitions: depth-first walk; a gate that
matches an already-seen original is registered as its duplicate and not
descended into; otherwise its children are visited and the gate is appended
to the originals. -/
def detectMD (g : BGraph) : Nat → Nat → MDState → MDState
  | 0, _, st => st
  | fuel + 1, gi, st =>
    if gi ∈ st.marks then st
    else
      match getGate g gi with
      | none => st
      | some gd =>
        let st1 : MDState := { st with marks := gi :: st.marks }
        match findOriginalGate st1.seen gd with
        | some orig => { st1 with dups := st1.dups ++ [(orig.1, gi)] }
        | none =>
          let st2 := (gateArgsOf g gd).foldl
            (fun st3 ai => detectMD g fuel ai st3) st1
          { st2 with seen := st2.seen ++ [(gi, gd)] }

def detectAllDuplicates (g : BGraph) : List (Nat × Nat) :=
  (detectMD g (g.gates.length + 1) g.root ⟨[], [], []⟩).dups

/-- Replace duplicate `dupIdx` by `origIdx` in every parent. -/
def replaceDupEverywhere (g : BGraph) (origIdx dupIdx : Nat) : BGraph :=
  { g with gates := g.gates.map (fun p =>
      if decide ((dupIdx : Int) ∈ p.2.args) || decide (-(dupIdx : Int) ∈ p.2.args)
      then (p.1, replaceDupInParent p.2 dupIdx origIdx)
      else p) }

/-- One round of Preprocessor::ProcessMultipleDefinitions: detect, then
replace every duplicate in its parents; `none` when no duplicate was found
(the graph did not change). -/
def processMultipleDefinitionsStep (g : BGraph) : Option BGraph :=
  let dups := detectAllDuplicates g
  if dups = [] then none
  else some (dups.foldl (fun g2 pr => replaceDupEverywhere g2 pr.1 pr.2) g)

/-- The driver loop of ProcessFaultTree: repeat the pass while it changes
the graph.  Returns `none` only when the fuel is exhausted. -/
def multipleDefinitionsLoop : Nat → BGraph → Option BGraph
  | 0, _ => none
  | fuel + 1, g =>
    match processMultipleDefinitionsStep g with
    | none => some g
    | some g2 => multipleDefinitionsLoop fuel g2

/-- The Boolean-optimization example: root OR(p1, p2) with p1 = AND(10, 4)
and p2 = AND(10, 5); variable 10 is the common node. -/
def exGraphC3 : BGraph :=
  ⟨[(1, ⟨.kOrGate, .kNormalState, 0, {2, 3}⟩),
    (2, ⟨.kAndGate, .kNormalState, 0, {10, 4}⟩),
    (3, ⟨.kAndGate, .kNormalState, 0, {10, 5}⟩)], 1⟩

def exSeenC4 : List (Nat × IGate) :=
  [(7, ⟨.kAndGate, .kNormalState, 0, {1, 2}⟩)]

def exGateC4 : IGate := ⟨.kAndGate, .kNormalState, 0, {1, 2}⟩

def exParentC4 : IGate := ⟨.kOrGate, .kNormalState, 0, {5, 9}⟩

/-- Errors raised at the validation boundary (the repo taxonomy has both
CycleError and ValidationError). -/
inductive MError where
  | validationError : String → List Nat → MError
  | cycleError : List Nat → MError
deriving DecidableEq, Repr

/-- A model element with name and attributes (Element of the mef layer). -/
structure MElement where
  name : String
  attributes : List (String × String)
deriving DecidableEq

def hasAttribute (e : MElement) (n : String) : Bool :=
  e.attributes.any (fun a => a.1 = n)

def getAttributeValue (e : MElement) (n : String) : String :=
  ((e.attributes.find? (fun a => a.1 = n)).map (fun a => a.2)).getD ""

/-- A formula event argument: a basic event, a gate or a house event. -/
inductive EventArg where
  | basicEvent : MElement → EventArg
  | gateEvent : MElement → EventArg
  | houseEvent : MElement → EventArg
deriving DecidableEq

/-- A formula: operator, event arguments, and the count of nested formula
arguments. -/
structure MFormula where
  type : Operator
  eventArgs : List EventArg
  formulaArgs : Nat
deriving DecidableEq

def MFormula.numArgs (f : MFormula) : Nat := f.eventArgs.length + f.formulaArgs

/-- A mef gate: its element data and its formula. -/
structure MGate where
  element : MElement
  formula : MFormula
deriving DecidableEq

/-- The count predicate of Gate::Validate: a basic event carrying attribute
"flavor" with value "conditional". -/
def isConditionalBasic : EventArg → Bool
  | .basicEvent e =>
    hasAttribute e "flavor" && decide (getAttributeValue e "flavor" = "conditional")
  | _ => false

/-- Gate::Validate (event.cc): only AND gates flavored "inhibit" are checked;
they must have exactly 2 arguments and exactly one conditional basic event. -/
def gateValidate (g : MGate) : Option MError :=
  if ¬(g.formula.type = .kAndGate) ∨ ¬(hasAttribute g.element "flavor" = true)
      ∨ ¬(getAttributeValue g.element "flavor" = "inhibit") then
    none
  else if g.formula.numArgs ≠ 2 then
    some (.validationError
      (g.element.name ++ "INHIBIT gate must have only 2 children") [])
  else if g.formula.eventArgs.countP isConditionalBasic ≠ 1 then
    some (.validationError
      (g.element.name ++ " : INHIBIT gate must have" ++
        " exactly one conditional event.") [])
  else none

/-- The inhibit pattern: an AND formula on a gate with attribute "flavor"
valued "inhibit". -/
def inhibitPattern (g : MGate) : Prop :=
  g.formula.type = .kAndGate ∧ hasAttribute g.element "flavor" = true
    ∧ getAttributeValue g.element "flavor" = "inhibit"

/-- The gate graph of a model: gate index to gate argument indices. -/
structure CModel where
  gates : List (Nat × List Nat)
deriving DecidableEq

def adjOf (m : CModel) (i : Nat) : List Nat :=
  ((m.gates.find? (fun p => p.1 = i)).map (fun p => p.2)).getD []

/-- Modelled from the spec: cycle::DetectCycle over gate-to-gate edges
(cycle.h absent from the snapshot) - a depth-first search keeping the
current path; a revisit along the path yields the cycle path. -/
def findCycleFrom (m : CModel) : Nat → List Nat → Nat → Option (List Nat)
  | 0, _, _ => none
  | fuel + 1, path, v =>
    if v ∈ path then some (path ++ [v])
    else (adjOf m v).foldl
      (fun acc c => acc <|> findCycleFrom m fuel (path ++ [v]) c) none

def detectCycle (m : CModel) (gi : Nat) : Option (List Nat) :=
  findCycleFrom m (m.gates.length + 2) [] gi

/-- The cycle-check portion of Initializer::CheckFirstLayer
(initializer.cc): for every gate run cycle detection; on detection a
ValidationError carrying the printed cycle is thrown. -/
def checkFirstLayerCycles (m : CModel) : Option MError :=
  m.gates.foldl
    (fun acc p =>
      acc <|> ((detectCycle m p.1).map
        (fun path => MError.validationError "Detected a cycle" path)))
    none

def exModelC7 : CModel := ⟨[(1, [2]), (2, [1])]⟩

def exGateC10 : MGate :=
  ⟨⟨"top", [("flavor", "inhibit")]⟩,
    ⟨.kAndGate,
      [.basicEvent ⟨"c", [("flavor", "conditional")]⟩,
        .basicEvent ⟨"b", []⟩], 0⟩⟩

def exAcyclicC7 : CModel := ⟨[(1, [2]), (2, [])]⟩

namespace Zdd

theorem sets_mkNode (v : Nat) (hi lo : Zdd) :
    (mkNode v hi lo).sets = hi.sets.image (insert v) ∪ lo.sets := by
  unfold mkNode
  split
  · next h => subst h; simp [sets]
  · rfl

theorem lt_of_varsAbove {v : Nat} : ∀ {z : Zdd}, varsAbove v z = true →
    ∀ {s : Finset Nat}, s ∈ z.sets → ∀ {x : Nat}, x ∈ s → v < x := by
  intro z
  induction z with
  | empty => intro _ s hs; simp [sets] at hs
  | base =>
    intro _ s hs x hx
    simp [sets] at hs; subst hs; simp at hx
  | node w hi lo ihh ihl =>
    intro hz s hs x hx
    simp only [varsAbove, Bool.and_eq_true, decide_eq_true_eq] at hz
    obtain ⟨⟨hvw, hhi⟩, hlo⟩ := hz
    simp only [sets, Finset.mem_union, Finset.mem_image] at hs
    rcases hs with ⟨u, hu, rfl⟩ | hs
    · rcases Finset.mem_insert.mp hx with rfl | hx2
      · exact hvw
      · exact ihh hhi hu hx2
    · exact ihl hlo hs hx

theorem not_mem_of_varsAbove {v : Nat} {z : Zdd} (hz : varsAbove v z = true)
    {s : Finset Nat} (hs : s ∈ z.sets) : v ∉ s :=
  fun hv => lt_irrefl v (lt_of_varsAbove hz hs hv)

theorem varsAbove_mkNode {v w : Nat} {hi lo : Zdd} (hw : v < w)
    (hhi : varsAbove v hi = true) (hlo : varsAbove v lo = true) :
    varsAbove v (mkNode w hi lo) = true := by
  unfold mkNode
  split
  · exact hlo
  · simp [varsAbove, hw, hhi, hlo]

theorem orderedZ_mkNode {v : Nat} {hi lo : Zdd} (hhi : varsAbove v hi = true)
    (hlo : varsAbove v lo = true) (ohi : OrderedZ hi = true)
    (olo : OrderedZ lo = true) : OrderedZ (mkNode v hi lo) = true := by
  unfold mkNode
  split
  · exact olo
  · simp [OrderedZ, hhi, hlo, ohi, olo]

theorem hasEmptySet_iff (z : Zdd) : z.hasEmptySet = true ↔ ∅ ∈ z.sets := by
  induction z with
  | empty => simp [hasEmptySet, sets]
  | base => simp [hasEmptySet, sets]
  | node v hi lo _ ihl =>
    simp only [hasEmptySet, sets, Finset.mem_union, Finset.mem_image, ihl]
    constructor
    · exact fun h => Or.inr h
    · rintro (⟨u, _, hu⟩ | h)
      · exact absurd hu (Finset.insert_ne_empty v u)
      · exact h

theorem varsAbove_subsume {v : Nat} : ∀ (h l : Zdd),
    varsAbove v h = true → varsAbove v (subsume h l) = true := by
  intro h l
  induction h, l using subsume.induct with
  | case1 x => intro _; simp [subsume, varsAbove]
  | case2 h hne =>
    intro hh
    rw [subsume.eq_def]
    split <;> first | rfl | exact hh | simp_all [varsAbove]
  | case3 x hne =>
    intro _
    rw [subsume.eq_def]
    split <;> simp_all [varsAbove]
  | case4 a a1 lo ih =>
    intro hh
    rw [subsume.eq_def]
    exact ih hh
  | case5 h1 h0 y l1 l0 ih1 ih2 ih3 =>
    intro hh
    rw [subsume.eq_def]
    simp only [if_pos rfl]
    simp only [varsAbove, Bool.and_eq_true, decide_eq_true_eq] at hh
    obtain ⟨⟨hvy, hh1⟩, hh0⟩ := hh
    exact varsAbove_mkNode hvy (ih2 (ih1 hh1)) (ih3 hh0)
  | case6 x h1 h0 y l1 l0 hne hlt ih1 ih2 =>
    intro hh
    rw [subsume.eq_def]
    simp only [if_neg hne, if_pos hlt]
    simp only [varsAbove, Bool.and_eq_true, decide_eq_true_eq] at hh
    obtain ⟨⟨hvx, hh1⟩, hh0⟩ := hh
    exact varsAbove_mkNode hvx (ih1 hh1) (ih2 hh0)
  | case7 x h1 h0 y l1 l0 hne hnlt ih =>
    intro hh
    rw [subsume.eq_def]
    simp only [if_neg hne, if_neg hnlt]
    exact ih hh

theorem orderedZ_subsume : ∀ (h l : Zdd),
    OrderedZ h = true → OrderedZ l = true → OrderedZ (subsume h l) = true := by
  intro h l
  induction h, l using subsume.induct with
  | case1 x => intro _ _; simp [subsume, OrderedZ]
  | case2 h hne =>
    intro hh _
    rw [subsume.eq_def]
    split <;> first | rfl | exact hh | simp_all [OrderedZ]
  | case3 x hne =>
    intro _ _
    rw [subsume.eq_def]
    split <;> simp_all [OrderedZ]
  | case4 a a1 lo ih =>
    intro hh hl
    rw [subsume.eq_def]
    simp only [OrderedZ, Bool.and_eq_true] at hl
    exact ih hh hl.2
  | case5 h1 h0 y l1 l0 ih1 ih2 ih3 =>
    intro hh hl
    rw [subsume.eq_def]
    simp only [if_pos rfl]
    simp only [OrderedZ, Bool.and_eq_true] at hh hl
    obtain ⟨⟨⟨ha1, ha0⟩, oh1⟩, oh0⟩ := hh
    obtain ⟨⟨⟨hb1, hb0⟩, ol1⟩, ol0⟩ := hl
    refine orderedZ_mkNode ?_ ?_ ?_ ?_
    · exact varsAbove_subsume _ _ (varsAbove_subsume _ _ ha1)
    · exact varsAbove_subsume _ _ ha0
    · exact ih2 (ih1 oh1 ol1) ol0
    · exact ih3 oh0 ol0
  | case6 x h1 h0 y l1 l0 hne hlt ih1 ih2 =>
    intro hh hl
    rw [subsume.eq_def]
    simp only [if_neg hne, if_pos hlt]
    simp only [OrderedZ, Bool.and_eq_true] at hh
    obtain ⟨⟨⟨ha1, ha0⟩, oh1⟩, oh0⟩ := hh
    refine orderedZ_mkNode ?_ ?_ ?_ ?_
    · exact varsAbove_subsume _ _ ha1
    · exact varsAbove_subsume _ _ ha0
    · exact ih1 oh1 hl
    · exact ih2 oh0 hl
  | case7 x h1 h0 y l1 l0 hne hnlt ih =>
    intro hh hl
    rw [subsume.eq_def]
    simp only [if_neg hne, if_neg hnlt]
    simp only [OrderedZ, Bool.and_eq_true] at hl
    exact ih hh hl.2

theorem subsume_empty_left (l : Zdd) : subsume .empty l = .empty := by
  cases l <;> rw [subsume.eq_def]

theorem subsume_empty_right (h : Zdd) : subsume h .empty = h := by
  cases h <;> rw [subsume.eq_def]

theorem subsume_base_right (h : Zdd) (hne : h ≠ .empty) :
    subsume h .base = .empty := by
  cases h
  · exact absurd rfl hne
  · rw [subsume.eq_def]
  · rw [subsume.eq_def]

theorem subsume_base_node (a : Nat) (a1 lo : Zdd) :
    subsume .base (.node a a1 lo) = subsume .base lo := by
  rw [subsume.eq_def]

theorem subsume_node_node (x y : Nat) (h1 h0 l1 l0 : Zdd) :
    subsume (.node x h1 h0) (.node y l1 l0) =
      if x = y then mkNode x (subsume (subsume h1 l1) l0) (subsume h0 l0)
      else if x < y then
        mkNode x (subsume h1 (.node y l1 l0)) (subsume h0 (.node y l1 l0))
      else subsume (.node x h1 h0) l0 := by
  rw [subsume.eq_def]

theorem le_of_mem_sets_node {y : Nat} {l1 l0 : Zdd} (h1 : varsAbove y l1 = true)
    (h0 : varsAbove y l0 = true) {t : Finset Nat}
    (ht : t ∈ (Zdd.node y l1 l0).sets) {x : Nat} (hx : x ∈ t) : y ≤ x := by
  simp only [sets, Finset.mem_union, Finset.mem_image] at ht
  rcases ht with ⟨u, hu, rfl⟩ | ht
  · rcases Finset.mem_insert.mp hx with rfl | hx2
    · exact le_refl x
    · exact le_of_lt (lt_of_varsAbove h1 hu hx2)
  · exact le_of_lt (lt_of_varsAbove h0 ht hx)

theorem not_mem_sets_node_of_lt {x y : Nat} {l1 l0 : Zdd} (hxy : x < y)
    (h1 : varsAbove y l1 = true) (h0 : varsAbove y l0 = true) {t : Finset Nat}
    (ht : t ∈ (Zdd.node y l1 l0).sets) : x ∉ t :=
  fun hx => absurd (le_of_mem_sets_node h1 h0 ht hx) (not_le.mpr hxy)

/-- Correctness of the modelled `Subsume`: on ordered arguments it denotes
exactly the removal from `H` of every set having a subset in `L`. -/
theorem sets_subsume : ∀ (h l : Zdd), OrderedZ h = true → OrderedZ l = true →
    (subsume h l).sets = h.sets.filter (fun s => ∀ t ∈ l.sets, ¬ t ⊆ s) := by
  intro h l
  induction h, l using subsume.induct with
  | case1 x =>
    intro _ _
    simp [subsume_empty_left, sets]
  | case2 h hne =>
    intro _ _
    rw [subsume_empty_right, Finset.filter_true_of_mem]
    intro s _ t ht
    simp [sets] at ht
  | case3 h hne =>
    intro _ _
    rw [subsume_base_right h (fun he => hne he)]
    simp only [sets]
    symm
    rw [Finset.filter_eq_empty_iff]
    intro s _ hpred
    exact hpred ∅ (by simp [sets]) (Finset.empty_subset s)
  | case4 a a1 lo ih =>
    intro _ hl
    simp only [OrderedZ, Bool.and_eq_true] at hl
    obtain ⟨⟨⟨hb1, hb0⟩, ol1⟩, ol0⟩ := hl
    rw [subsume_base_node, ih rfl ol0]
    apply Finset.filter_congr
    intro s hs
    simp only [sets, Finset.mem_singleton] at hs
    subst hs
    constructor
    · intro hp t ht hts
      have hte : t = ∅ := Finset.subset_empty.mp hts
      subst hte
      simp only [sets, Finset.mem_union, Finset.mem_image] at ht
      rcases ht with ⟨u, _, hu⟩ | ht
      · exact Finset.insert_ne_empty a u hu
      · exact hp ∅ ht (Finset.empty_subset ∅)
    · intro hp t ht hts
      exact hp t (by simp only [sets, Finset.mem_union]; exact Or.inr ht) hts
  | case5 h1 h0 y l1 l0 ih1 ih2 ih3 =>
    intro hh hl
    simp only [OrderedZ, Bool.and_eq_true] at hh hl
    obtain ⟨⟨⟨ha1, ha0⟩, oh1⟩, oh0⟩ := hh
    obtain ⟨⟨⟨hb1, hb0⟩, ol1⟩, ol0⟩ := hl
    have os1 : OrderedZ (subsume h1 l1) = true := orderedZ_subsume _ _ oh1 ol1
    have e1 := ih1 oh1 ol1
    have e2 := ih2 os1 ol0
    have e3 := ih3 oh0 ol0
    rw [subsume_node_node, if_pos rfl, sets_mkNode, e2, e1, e3]
    ext s
    simp only [Finset.mem_union, Finset.mem_image, Finset.mem_filter, sets]
    constructor
    · rintro (⟨u, ⟨⟨hu, hpl1⟩, hpl0⟩, rfl⟩ | ⟨hs, hpl0⟩)
      · refine ⟨Or.inl ⟨u, hu, rfl⟩, ?_⟩
        rintro t (⟨w, hw, rfl⟩ | ht) hts
        · have hyw : y ∉ w := not_mem_of_varsAbove hb1 hw
          have hwi : w ⊆ insert y u := (Finset.subset_insert y w).trans hts
          have hwu : w ⊆ u := (Finset.subset_insert_iff_of_not_mem hyw).mp hwi
          exact hpl1 w hw hwu
        · have hyt : y ∉ t := not_mem_of_varsAbove hb0 ht
          have htu : t ⊆ u := (Finset.subset_insert_iff_of_not_mem hyt).mp hts
          exact hpl0 t ht htu
      · refine ⟨Or.inr hs, ?_⟩
        rintro t (⟨w, hw, rfl⟩ | ht) hts
        · have hys : y ∉ s := not_mem_of_varsAbove ha0 hs
          exact hys (hts (Finset.mem_insert_self y w))
        · exact hpl0 t ht hts
    · rintro ⟨⟨u, hu, rfl⟩ | hs, hall⟩
      · refine Or.inl ⟨u, ⟨⟨hu, ?_⟩, ?_⟩, rfl⟩
        · intro w hw hwu
          exact hall (insert y w) (Or.inl ⟨w, hw, rfl⟩)
            (Finset.insert_subset_insert y hwu)
        · intro t ht htu
          exact hall t (Or.inr ht) (htu.trans (Finset.subset_insert y u))
      · refine Or.inr ⟨hs, ?_⟩
        intro t ht hts
        exact hall t (Or.inr ht) hts
  | case6 x h1 h0 y l1 l0 hne hlt ih1 ih2 =>
    intro hh hl
    simp only [OrderedZ, Bool.and_eq_true] at hh
    obtain ⟨⟨⟨ha1, ha0⟩, oh1⟩, oh0⟩ := hh
    have hl2 := hl
    simp only [OrderedZ, Bool.and_eq_true] at hl2
    obtain ⟨⟨⟨hb1, hb0⟩, ol1⟩, ol0⟩ := hl2
    have e1 := ih1 oh1 hl
    have e2 := ih2 oh0 hl
    rw [subsume_node_node, if_neg hne, if_pos hlt, sets_mkNode, e1, e2]
    ext s
    simp only [Finset.mem_union, Finset.mem_image, Finset.mem_filter, sets]
    constructor
    · rintro (⟨u, ⟨hu, hp⟩, rfl⟩ | ⟨hs, hp⟩)
      · refine ⟨Or.inl ⟨u, hu, rfl⟩, ?_⟩
        intro t ht hts
        have hxt : x ∉ t := not_mem_sets_node_of_lt hlt hb1 hb0 (by
          simp only [sets, Finset.mem_union, Finset.mem_image]; exact ht)
        have htu : t ⊆ u := (Finset.subset_insert_iff_of_not_mem hxt).mp hts
        exact hp t ht htu
      · exact ⟨Or.inr hs, hp⟩
    · rintro ⟨⟨u, hu, rfl⟩ | hs, hall⟩
      · refine Or.inl ⟨u, ⟨hu, ?_⟩, rfl⟩
        intro t ht htu
        exact hall t ht (htu.trans (Finset.subset_insert x u))
      · exact Or.inr ⟨hs, hall⟩
  | case7 x h1 h0 y l1 l0 hne hnlt ih =>
    intro hh hl
    simp only [OrderedZ, Bool.and_eq_true] at hl
    obtain ⟨⟨⟨hb1, hb0⟩, ol1⟩, ol0⟩ := hl
    have hyx : y < x := by omega
    have hh2 := hh
    simp only [OrderedZ, Bool.and_eq_true] at hh2
    obtain ⟨⟨⟨ha1, ha0⟩, oh1⟩, oh0⟩ := hh2
    rw [subsume_node_node, if_neg hne, if_neg hnlt, ih hh ol0]
    apply Finset.filter_congr
    intro s hs
    constructor
    · intro hp t ht hts
      simp only [sets, Finset.mem_union, Finset.mem_image] at ht
      rcases ht with ⟨w, _, rfl⟩ | ht
      · have hys : y ∉ s := not_mem_sets_node_of_lt hyx ha1 ha0 hs
        exact hys (hts (Finset.mem_insert_self y w))
      · exact hp t ht hts
    · intro hp t ht hts
      exact hp t (by simp only [sets, Finset.mem_union]; exact Or.inr ht) hts

theorem varsAbove_minimize {v : Nat} : ∀ (z : Zdd), varsAbove v z = true →
    varsAbove v (minimize z) = true := by
  intro z
  induction z with
  | empty => intro h; exact h
  | base => intro h; exact h
  | node w hi lo ihh ihl =>
    intro h
    simp only [varsAbove, Bool.and_eq_true, decide_eq_true_eq] at h
    obtain ⟨⟨hvw, hhi⟩, hlo⟩ := h
    exact varsAbove_mkNode hvw
      (varsAbove_subsume _ _ (ihh hhi)) (ihl hlo)

theorem orderedZ_minimize : ∀ (z : Zdd), OrderedZ z = true →
    OrderedZ (minimize z) = true := by
  intro z
  induction z with
  | empty => intro h; exact h
  | base => intro h; exact h
  | node v hi lo ihh ihl =>
    intro h
    simp only [OrderedZ, Bool.and_eq_true] at h
    obtain ⟨⟨⟨ha1, ha0⟩, ohi⟩, olo⟩ := h
    exact orderedZ_mkNode
      (varsAbove_subsume _ _ (varsAbove_minimize _ ha1))
      (varsAbove_minimize _ ha0)
      (orderedZ_subsume _ _ (ihh ohi) (ihl olo))
      (ihl olo)

theorem toFinset_generateCutSets (z : Zdd) :
    (generateCutSets z).toFinset = z.sets := by
  induction z with
  | empty => simp [generateCutSets, sets]
  | base => simp [generateCutSets, sets]
  | node v hi lo ihh ihl =>
    ext a
    simp [generateCutSets, sets, ← ihh, ← ihl]

theorem minimize_antichain : ∀ (z : Zdd), OrderedZ z = true →
    ∀ s ∈ (minimize z).sets, ∀ t ∈ (minimize z).sets, ¬ t ⊂ s := by
  intro z
  induction z with
  | empty => intro _ s hs; simp [minimize, sets] at hs
  | base =>
    intro _ s hs t ht
    simp [minimize, sets] at hs ht
    subst hs; subst ht
    exact fun h => (Finset.ssubset_iff_subset_ne.mp h).2 rfl
  | node v hi lo ihh ihl =>
    intro h
    simp only [OrderedZ, Bool.and_eq_true] at h
    obtain ⟨⟨⟨ha1, ha0⟩, ohi⟩, olo⟩ := h
    have omh := orderedZ_minimize _ ohi
    have oml := orderedZ_minimize _ olo
    have vah := varsAbove_minimize (v := v) _ ha1
    have val := varsAbove_minimize (v := v) _ ha0
    have es : (minimize (.node v hi lo)).sets
        = ((minimize hi).sets.filter
            (fun s => ∀ t ∈ (minimize lo).sets, ¬ t ⊆ s)).image (insert v)
          ∪ (minimize lo).sets := by
      show (mkNode v (subsume (minimize hi) (minimize lo)) (minimize lo)).sets = _
      rw [sets_mkNode, sets_subsume _ _ omh oml]
    intro s hs t ht hts
    rw [es] at hs ht
    simp only [Finset.mem_union, Finset.mem_image, Finset.mem_filter] at hs ht
    rcases hs with ⟨u, ⟨hu, hup⟩, rfl⟩ | hs
    · rcases ht with ⟨w, ⟨hw, _⟩, rfl⟩ | ht
      · -- both from the high branch
        have hvw : v ∉ w := not_mem_of_varsAbove vah hw
        have hvu : v ∉ u := not_mem_of_varsAbove vah hu
        have hsub : w ⊆ u := (Finset.subset_insert_iff_of_not_mem hvw).mp
          ((Finset.subset_insert v w).trans hts.subset)
        have hne : w ≠ u := fun he => hts.ne (by rw [he])
        exact ihh ohi u hu w hw (Finset.ssubset_iff_subset_ne.mpr ⟨hsub, hne⟩)
      · -- t from low, s from high: t would be a subset surviving subsume
        have hvt : v ∉ t := not_mem_of_varsAbove val ht
        have htu : t ⊆ u := (Finset.subset_insert_iff_of_not_mem hvt).mp hts.subset
        exact hup t ht htu
    · rcases ht with ⟨w, ⟨hw, _⟩, rfl⟩ | ht
      · -- t from high contains v, s from low cannot contain v
        have hvs : v ∉ s := not_mem_of_varsAbove val hs
        exact hvs (hts.subset (Finset.mem_insert_self v w))
      · exact ihl olo s hs t ht hts

/-- C1: After Minimize (using Subsume to remove from the high branch every set
that has a subset in the low branch), the family of sets denoted by the ZBDD,
and hence the list produced by cut_sets(), is subset-minimal: no returned cut
set has a proper subset that is also a returned cut set. -/
theorem C1_minimize_cut_sets_minimal (z : Zdd) (hz : OrderedZ z = true) :
    (∀ s ∈ (minimize z).sets, ∀ t ∈ (minimize z).sets, ¬ t ⊂ s) ∧
    (∀ s ∈ (minimize z).generateCutSets, ∀ t ∈ (minimize z).generateCutSets,
      ¬ t ⊂ s) := by
  refine ⟨minimize_antichain z hz, ?_⟩
  intro s hs t ht
  exact minimize_antichain z hz s
    (by rw [← toFinset_generateCutSets]; exact List.mem_toFinset.mpr hs) t
    (by rw [← toFinset_generateCutSets]; exact List.mem_toFinset.mpr ht)

/-- Witness for C1 at a concrete ordered ZBDD. -/
theorem C1_minimize_cut_sets_minimal_witness :
    OrderedZ (.node 1 (.node 2 .base .empty) .base) = true ∧
    ((∀ s ∈ (minimize (.node 1 (.node 2 .base .empty) .base)).sets,
        ∀ t ∈ (minimize (.node 1 (.node 2 .base .empty) .base)).sets, ¬ t ⊂ s) ∧
      (∀ s ∈ (minimize (.node 1 (.node 2 .base .empty) .base)).generateCutSets,
        ∀ t ∈ (minimize (.node 1 (.node 2 .base .empty) .base)).generateCutSets,
          ¬ t ⊂ s)) :=
  ⟨by decide, C1_minimize_cut_sets_minimal _ (by decide)⟩

end Zdd

/-- C2 counterexample: a NULL (pass-through) parent with a False constant
argument is nullified by the code, while the table of the claim (grouping NULL
with NOT) demands Unity. -/
theorem C2_counterexample :
    processConstantArg ⟨.kNullGate, .kNormalState, 0, {1}⟩ 1 false []
      ≠ claimConstantArgTable ⟨.kNullGate, .kNormalState, 0, {1}⟩ 1 false [] := by
  decide

/-- C2 (amended): ProcessConstantArg performs exactly the per-operator table
action with the NULL row corrected to pass-through behavior (Null on False,
Unity on True), and the callers compute the effective state as
state XOR (sign < 0). -/
theorem C2_process_constant_arg (gate : IGate) (arg : Int) (state : Bool)
    (toErase : List Int) :
    processConstantArg gate arg state toErase
      = amendedConstantArgTable gate arg state toErase
    ∧ ∀ (st : Bool) (idx : Int),
        effectiveState st idx = xor st (decide (idx < 0)) := by
  constructor
  · rcases gate with ⟨t, st, vo, ar⟩
    cases t <;> cases state <;>
      simp [processConstantArg, amendedConstantArgTable, eq_comm]
  · intro st idx
    unfold effectiveState
    cases st <;> by_cases h : idx < 0 <;> simp [h]

namespace BT

theorem notifyNeg_gate (s : Bool) (o : Operator) (v : Nat) (args : List BT) :
    notifyNeg (.gate s o v args)
      = .gate s o v (args.map (fun a => flipIfNegType (notifyNeg a))) := by
  rw [notifyNeg]
  congr 1
  simp [List.attach_map_val]

theorem removeNull_gate (s : Bool) (o : Operator) (v : Nat) (args : List BT) :
    removeNull (.gate s o v args)
      = .gate s o v (args.map (fun a => joinNullElim (removeNull a))) := by
  rw [removeNull]
  congr 1
  simp [List.attach_map_val]

theorem propComp_gate (s : Bool) (o : Operator) (v : Nat) (args : List BT) :
    propComp (.gate s o v args) = .gate s o v (args.map propCompArg) := by
  rw [propComp]
  congr 1
  simp [List.attach_map_val]

theorem all_map_id {α : Type} (f : α → Bool) (l : List α) :
    (l.map f).all id = l.all f := by
  induction l with
  | nil => rfl
  | cons a l ih => simp [ih]

theorem any_map_id {α : Type} (f : α → Bool) (l : List α) :
    (l.map f).any id = l.any f := by
  induction l with
  | nil => rfl
  | cons a l ih => simp [ih]

theorem typesOk_gate (s : Bool) (o : Operator) (v : Nat) (args : List BT) :
    typesOk (.gate s o v args) = (isNormalType o && args.all typesOk) := by
  rw [typesOk]
  congr 1
  rw [List.attach_map_val, all_map_id]

theorem gateEdgesPos_gate (s : Bool) (o : Operator) (v : Nat) (args : List BT) :
    gateEdgesPos (.gate s o v args)
      = args.all (fun a => argEdgeOk a && gateEdgesPos a) := by
  rw [gateEdgesPos]
  rw [List.attach_map_val args (fun a => argEdgeOk a && gateEdgesPos a), all_map_id]

theorem evalBT_gate (env : Nat → Bool) (s : Bool) (o : Operator) (v : Nat)
    (args : List BT) :
    evalBT env (.gate s o v args)
      = (let vals := args.map (evalBT env)
        let r := match o with
          | .kAndGate => vals.all id
          | .kNandGate => !vals.all id
          | .kOrGate => vals.any id
          | .kNorGate => !vals.any id
          | .kNullGate => vals.all id
          | .kNotGate => !vals.all id
          | .kXorGate => vals.foldl xor false
          | .kAtleastGate => decide (v ≤ vals.count true)
        if s then r else !r) := by
  rw [evalBT.eq_def]
  simp only [List.attach_map_val]

theorem typesOk_var (s : Bool) (i : Nat) : typesOk (.var s i) = true := by
  rw [typesOk]

theorem gateEdgesPos_var (s : Bool) (i : Nat) : gateEdgesPos (.var s i) = true := by
  rw [gateEdgesPos]

theorem typesOk_flipSign (t : BT) : typesOk (flipSign t) = typesOk t := by
  cases t <;> simp [flipSign, typesOk_var, typesOk_gate]

theorem isNormalType_flipAndOr (o : Operator) (h : isNormalType o = true) :
    isNormalType (flipAndOr o) = true := by
  cases o <;> first | rfl | exact absurd h (by decide)

theorem all_flipSign_typesOk (args : List BT) (h : args.all typesOk = true) :
    (args.map flipSign).all typesOk = true := by
  rw [List.all_eq_true] at h ⊢
  intro a ha
  rw [List.mem_map] at ha
  obtain ⟨b, hb, rfl⟩ := ha
  rw [typesOk_flipSign]
  exact h b hb

theorem typesOk_normalizeAtleast : ∀ (s : Bool) (k : Nat) (args : List BT),
    args.all typesOk = true → typesOk (normalizeAtleast s k args) = true := by
  intro s k args
  induction s, k, args using normalizeAtleast.induct with
  | case1 s args =>
    intro h
    rw [normalizeAtleast.eq_def]; dsimp only; rw [if_pos rfl, typesOk_gate]
    simp [isNormalType, h]
  | case2 s args hne =>
    intro h
    rw [normalizeAtleast.eq_def]; dsimp only; rw [if_neg hne, if_pos rfl, typesOk_gate]
    simp [isNormalType, h]
  | case3 s k hk hlen =>
    intro _
    rw [normalizeAtleast.eq_def]; dsimp only; rw [if_neg hlen, if_neg hk, typesOk_gate]
    simp [isNormalType]
  | case4 s k hk a rest hlen ih1 ih2 =>
    intro h
    rw [List.all_cons, Bool.and_eq_true] at h
    rw [normalizeAtleast.eq_def]; dsimp only; rw [if_neg hlen, if_neg hk]
    rw [typesOk_gate]
    simp only [isNormalType, Bool.true_and, List.all_cons, List.all_nil,
      Bool.and_true, Bool.and_eq_true]
    refine ⟨?_, ih2 h.2⟩
    rw [typesOk_gate]
    simp only [isNormalType, Bool.true_and, List.all_cons, List.all_nil,
      Bool.and_true, Bool.and_eq_true]
    exact ⟨h.1, ih1 h.2⟩

theorem typesOk_normalizeXor (s : Bool) (v : Nat) (args : List BT)
    (h : args.all typesOk = true) :
    typesOk (normalizeXor s v args) = true := by
  unfold normalizeXor
  split
  · next a b =>
    simp only [List.all_cons, List.all_nil, Bool.and_true, Bool.and_eq_true] at h
    rw [typesOk_gate]
    simp only [isNormalType, Bool.true_and, List.all_cons, List.all_nil,
      Bool.and_true, Bool.and_eq_true]
    constructor
    · rw [typesOk_gate]
      simp only [isNormalType, Bool.true_and, List.all_cons, List.all_nil,
        Bool.and_true, Bool.and_eq_true]
      exact ⟨h.1, by rw [typesOk_flipSign]; exact h.2⟩
    · rw [typesOk_gate]
      simp only [isNormalType, Bool.true_and, List.all_cons, List.all_nil,
        Bool.and_true, Bool.and_eq_true]
      exact ⟨by rw [typesOk_flipSign]; exact h.1, h.2⟩
  · rw [typesOk_gate]
    simp [isNormalType, h]

theorem typesOk_normalizeGate : ∀ (t : BT), typesOk (normalizeGate t) = true := by
  refine indOn (fun s i => ?_) (fun s o v args ih => ?_)
  · rw [show normalizeGate (.var s i) = .var s i from by rw [normalizeGate.eq_def]]
    exact typesOk_var s i
  · have hall : (args.map normalizeGate).all typesOk = true := by
      rw [List.all_eq_true]
      intro a ha
      rw [List.mem_map] at ha
      obtain ⟨b, hb, rfl⟩ := ha
      exact ih b hb
    rw [normalizeGate.eq_def]
    cases o <;>
      simp only [List.attach_map_val] <;>
      first
        | (rw [typesOk_gate]; simp [isNormalType, hall])
        | exact typesOk_normalizeXor _ _ _ hall
        | exact typesOk_normalizeAtleast _ _ _ hall

theorem typesOk_joinNullElim (u : BT) (h : typesOk u = true) :
    typesOk (joinNullElim u) = true := by
  unfold joinNullElim
  split
  · next s v c =>
    rw [typesOk_gate] at h
    simp only [List.all_cons, List.all_nil, Bool.and_true, Bool.and_eq_true] at h
    split
    · exact h.2
    · rw [typesOk_flipSign]
      exact h.2
  · exact h

theorem typesOk_removeNull : ∀ (t : BT), typesOk t = true →
    typesOk (removeNull t) = true := by
  refine indOn (fun s i _ => ?_) (fun s o v args ih h => ?_)
  · rw [show removeNull (.var s i) = .var s i from by rw [removeNull]]
    exact typesOk_var s i
  · rw [typesOk_gate] at h
    rw [Bool.and_eq_true] at h
    rw [removeNull_gate, typesOk_gate]
    simp only [h.1, Bool.true_and]
    rw [List.all_eq_true]
    intro a ha
    rw [List.mem_map] at ha
    obtain ⟨b, hb, rfl⟩ := ha
    have hb2 : typesOk b = true := by
      rw [List.all_eq_true] at h
      exact h.2 b hb
    exact typesOk_joinNullElim _ (ih b hb hb2)

theorem typesOk_processNullRoot (rs : Int) (t : BT) (h : typesOk t = true) :
    typesOk (processNullRoot rs t).2 = true := by
  unfold processNullRoot
  split
  · next s v s2 o2 v2 a2 =>
    rw [typesOk_gate] at h
    simp only [List.all_cons, List.all_nil, Bool.and_true, Bool.and_eq_true] at h
    rw [typesOk_gate] at h ⊢
    exact h.2
  · exact h

theorem sizeOf_flipSign_eq (u : BT) : sizeOf (flipSign u) = sizeOf u := by
  cases u with
  | var s3 i3 => cases s3 <;> rfl
  | gate s3 o3 v3 a3 => cases s3 <;> rfl

theorem sizeOf_map_flipSign (l : List BT) :
    sizeOf (List.map flipSign l) = sizeOf l := by
  induction l with
  | nil => rfl
  | cons hd tl ihl => simp [sizeOf_flipSign_eq, ihl]

theorem sizeOf_complemented (s2 : Bool) (o2 : Operator) (v2 : Nat)
    (a2 : List BT) :
    sizeOf (BT.gate true (flipAndOr o2) v2 (a2.map flipSign))
      = sizeOf (BT.gate s2 o2 v2 a2) := by
  have ho : sizeOf (flipAndOr o2) = sizeOf o2 := by cases o2 <;> rfl
  simp [ho, sizeOf_map_flipSign]

theorem typesOk_propComp_aux : ∀ (n : Nat),
    (∀ t : BT, sizeOf t ≤ n → typesOk t = true → typesOk (propComp t) = true)
    ∧ (∀ t : BT, sizeOf t ≤ n → typesOk t = true →
        typesOk (propCompArg t) = true) := by
  intro n
  induction n with
  | zero =>
    constructor <;> intro t ht <;> cases t <;> simp at ht
  | succ n ih =>
    have hB : ∀ t : BT, sizeOf t ≤ n + 1 → typesOk t = true →
        typesOk (propComp t) = true := by
      intro t ht h
      cases t with
      | var s i =>
        rw [show propComp (.var s i) = .var s i from by rw [propComp]]
        exact h
      | gate s o v args =>
        rw [typesOk_gate, Bool.and_eq_true] at h
        rw [propComp_gate, typesOk_gate]
        simp only [h.1, Bool.true_and]
        rw [List.all_eq_true]
        intro a ha
        rw [List.mem_map] at ha
        obtain ⟨b, hb, rfl⟩ := ha
        have hsb : sizeOf b ≤ n := by
          have h1 := List.sizeOf_lt_of_mem hb
          have h2 : sizeOf args < sizeOf (BT.gate s o v args) := by
            simp
          omega
        have hb2 : typesOk b = true := by
          rw [List.all_eq_true] at h
          exact h.2 b hb
        exact ih.2 b hsb hb2
    refine ⟨hB, ?_⟩
    intro t ht h
    cases t with
    | var s i =>
      rw [show propCompArg (.var s i) = .var s i from by rw [propCompArg]]
      exact h
    | gate s2 o2 v2 a2 =>
      rw [show propCompArg (.gate s2 o2 v2 a2)
          = (if s2 then propComp (.gate s2 o2 v2 a2)
            else propComp (.gate true (flipAndOr o2) v2 (a2.map flipSign)))
        from by rw [propCompArg]]
      rw [typesOk_gate, Bool.and_eq_true] at h
      split
      · apply hB _ ht
        rw [typesOk_gate, Bool.and_eq_true]
        exact h
      · apply hB _ (by rw [sizeOf_complemented s2]; exact ht)
        rw [typesOk_gate, Bool.and_eq_true]
        exact ⟨isNormalType_flipAndOr _ h.1, all_flipSign_typesOk _ h.2⟩

theorem typesOk_propComp (t : BT) (h : typesOk t = true) :
    typesOk (propComp t) = true :=
  (typesOk_propComp_aux (sizeOf t)).1 t (le_refl _) h

theorem gateEdgesPos_propComp_aux : ∀ (n : Nat),
    (∀ t : BT, sizeOf t ≤ n → gateEdgesPos (propComp t) = true)
    ∧ (∀ t : BT, sizeOf t ≤ n →
        gateEdgesPos (propCompArg t) = true ∧ argEdgeOk (propCompArg t) = true) := by
  intro n
  induction n with
  | zero =>
    constructor <;> intro t ht <;> cases t <;> simp at ht
  | succ n ih =>
    have hB : ∀ t : BT, sizeOf t ≤ n + 1 → gateEdgesPos (propComp t) = true := by
      intro t ht
      cases t with
      | var s i =>
        rw [show propComp (.var s i) = .var s i from by rw [propComp]]
        exact gateEdgesPos_var s i
      | gate s o v args =>
        rw [propComp_gate, gateEdgesPos_gate]
        rw [List.all_eq_true]
        intro a ha
        rw [List.mem_map] at ha
        obtain ⟨b, hb, rfl⟩ := ha
        have hsb : sizeOf b ≤ n := by
          have h1 := List.sizeOf_lt_of_mem hb
          have h2 : sizeOf args < sizeOf (BT.gate s o v args) := by
            simp
          omega
        have hq := ih.2 b hsb
        rw [Bool.and_eq_true]
        exact ⟨hq.2, hq.1⟩
    refine ⟨hB, ?_⟩
    intro t ht
    cases t with
    | var s i =>
      rw [show propCompArg (.var s i) = .var s i from by rw [propCompArg]]
      exact ⟨gateEdgesPos_var s i, rfl⟩
    | gate s2 o2 v2 a2 =>
      rw [show propCompArg (.gate s2 o2 v2 a2)
          = (if s2 then propComp (.gate s2 o2 v2 a2)
            else propComp (.gate true (flipAndOr o2) v2 (a2.map flipSign)))
        from by rw [propCompArg]]
      split
      · next hs2 =>
        refine ⟨hB _ ht, ?_⟩
        rw [propComp_gate]
        simp [argEdgeOk, hs2]
      · refine ⟨hB _ (by rw [sizeOf_complemented s2]; exact ht), ?_⟩
        rw [propComp_gate]
        simp [argEdgeOk]

theorem gateEdgesPos_propComp (t : BT) : gateEdgesPos (propComp t) = true :=
  (gateEdgesPos_propComp_aux (sizeOf t)).1 t (le_refl _)

theorem typesOk_complementPass (rs : Int) (t : BT) (h : typesOk t = true) :
    typesOk (complementPass rs t) = true := by
  unfold complementPass
  apply typesOk_propComp
  split
  · split
    · next s o v args heq =>
      rw [typesOk_gate] at h ⊢
      rw [Bool.and_eq_true] at h
      rw [Bool.and_eq_true]
      exact ⟨isNormalType_flipAndOr _ h.1, all_flipSign_typesOk _ h.2⟩
    · exact h
  · exact h

theorem gateEdgesPos_complementPass (rs : Int) (t : BT) :
    gateEdgesPos (complementPass rs t) = true := by
  unfold complementPass
  exact gateEdgesPos_propComp _

/-- C6: after the normalization and complement-propagation stages, every gate
reachable from the root has type AND, OR or NULL, and no gate-argument edge
carries a complement. -/
theorem C6_normalized_no_complement (t : BT) :
    typesOk (preprocessToComplements t) = true
    ∧ gateEdgesPos (preprocessToComplements t) = true := by
  unfold preprocessToComplements normalizePass
  constructor
  · exact typesOk_complementPass _ _
      (typesOk_processNullRoot _ _
        (typesOk_removeNull _ (typesOk_normalizeGate _)))
  · exact gateEdgesPos_complementPass _ _

theorem all_id_count (l : List Bool) :
    l.all id = decide (l.length ≤ l.count true) := by
  induction l with
  | nil => rfl
  | cons b l ih =>
    have hc := List.count_le_length (a := true) (l := l)
    cases b <;> simp [List.count_cons, ih] <;> omega

theorem any_id_count (l : List Bool) :
    l.any id = decide (1 ≤ l.count true) := by
  induction l with
  | nil => rfl
  | cons b l ih =>
    cases b <;> simp [List.count_cons, ih]

theorem evalBT_andn (env : Nat → Bool) (v : Nat) (args : List BT) :
    evalBT env (.gate true .kAndGate v args) = (args.map (evalBT env)).all id := by
  rw [evalBT_gate]; rfl

theorem evalBT_orn (env : Nat → Bool) (v : Nat) (args : List BT) :
    evalBT env (.gate true .kOrGate v args) = (args.map (evalBT env)).any id := by
  rw [evalBT_gate]; rfl

theorem eval_normalizeAtleast : ∀ (args : List BT) (k : Nat) (env : Nat → Bool),
    1 ≤ k → k ≤ args.length →
    evalBT env (normalizeAtleast true k args)
      = decide (k ≤ (args.map (evalBT env)).count true) := by
  intro args
  induction args with
  | nil =>
    intro k env h1 h2
    simp at h2
    omega
  | cons a rest ih =>
    intro k env h1 h2
    by_cases hlen : (a :: rest).length = k
    · rw [normalizeAtleast.eq_def]
      dsimp only
      rw [if_pos hlen, evalBT_andn, all_id_count, List.length_map, hlen]
    · by_cases hk1 : k = 1
      · rw [normalizeAtleast.eq_def]
        dsimp only
        rw [if_neg hlen, if_pos hk1, evalBT_orn, any_id_count, hk1]
      · rw [normalizeAtleast.eq_def]
        dsimp only
        rw [if_neg hlen, if_neg hk1]
        have ih1 : evalBT env (normalizeAtleast true (k - 1) rest)
            = decide (k - 1 ≤ (rest.map (evalBT env)).count true) := by
          apply ih (k - 1) env (by omega)
          simp at h2
          omega
        have ih2 : evalBT env (normalizeAtleast true k rest)
            = decide (k ≤ (rest.map (evalBT env)).count true) := by
          apply ih k env h1
          simp at hlen h2
          omega
        rw [evalBT_orn]
        simp only [List.map_cons, List.map_nil, List.any_cons, List.any_nil,
          Bool.or_false]
        rw [evalBT_andn]
        simp only [List.map_cons, List.map_nil, List.all_cons, List.all_nil,
          Bool.and_true]
        rw [ih1, ih2]
        simp only [id, List.count_cons]
        cases hea : evalBT env a
        all_goals rw [Bool.eq_iff_iff]
        all_goals simp
        all_goals omega

/-- C5: ATLEAST normalization produces the pick-first / skip-first expansion,
terminates by retyping to AND when the argument count equals k and to OR
when k is 1, and is logically equivalent to "at least k arguments true". -/
theorem C5_normalize_atleast_gate (env : Nat → Bool) (k : Nat) (args : List BT)
    (h1 : 1 ≤ k) (h2 : k ≤ args.length) :
    evalBT env (normalizeAtleast true k args)
      = decide (k ≤ (args.map (evalBT env)).count true)
    ∧ (∀ (s : Bool) (a : BT) (rest : List BT), (a :: rest).length ≠ k → k ≠ 1 →
        normalizeAtleast s k (a :: rest)
          = .gate s .kOrGate k
              [.gate true .kAndGate 0 [a, normalizeAtleast true (k - 1) rest],
                normalizeAtleast true k rest])
    ∧ (∀ (s : Bool), args.length = k →
        normalizeAtleast s k args = .gate s .kAndGate k args)
    ∧ (∀ (s : Bool), args.length ≠ k → k = 1 →
        normalizeAtleast s k args = .gate s .kOrGate k args) := by
  refine ⟨eval_normalizeAtleast args k env h1 h2, ?_, ?_, ?_⟩
  · intro s a rest hl hk
    rw [normalizeAtleast.eq_def]
    dsimp only
    rw [if_neg hl, if_neg hk]
  · intro s hl
    rw [normalizeAtleast.eq_def]
    dsimp only
    rw [if_pos hl]
  · intro s hl hk
    rw [normalizeAtleast.eq_def]
    dsimp only
    rw [if_neg hl, if_pos hk]

/-- Witness for C5 at k = 2 over three variables, two of them true. -/
theorem C5_normalize_atleast_gate_witness :
    (1 ≤ 2 ∧ 2 ≤ List.length [BT.var true 0, BT.var true 1, BT.var true 2]) ∧
    (evalBT ex5env
        (normalizeAtleast true 2 [BT.var true 0, BT.var true 1, BT.var true 2])
      = decide (2 ≤
          (([BT.var true 0, BT.var true 1, BT.var true 2]).map
            (evalBT ex5env)).count true)
    ∧ (∀ (s : Bool) (a : BT) (rest : List BT), (a :: rest).length ≠ 2 → 2 ≠ 1 →
        normalizeAtleast s 2 (a :: rest)
          = .gate s .kOrGate 2
              [.gate true .kAndGate 0 [a, normalizeAtleast true (2 - 1) rest],
                normalizeAtleast true 2 rest])
    ∧ (∀ (s : Bool),
        List.length [BT.var true 0, BT.var true 1, BT.var true 2] = 2 →
        normalizeAtleast s 2 [BT.var true 0, BT.var true 1, BT.var true 2]
          = .gate s .kAndGate 2 [BT.var true 0, BT.var true 1, BT.var true 2])
    ∧ (∀ (s : Bool),
        List.length [BT.var true 0, BT.var true 1, BT.var true 2] ≠ 2 → 2 = 1 →
        normalizeAtleast s 2 [BT.var true 0, BT.var true 1, BT.var true 2]
          = .gate s .kOrGate 2 [BT.var true 0, BT.var true 1, BT.var true 2])) :=
  ⟨⟨by decide, by decide⟩,
    C5_normalize_atleast_gate ex5env 2 _ (by decide) (by decide)⟩

/-- C9: a Normal-state NULL-type root whose single argument is a gate is
replaced by that argument gate with a positive edge; the implicit root sign
is multiplied by -1 exactly when the argument edge was negative; a NULL root
over a variable is left in place. -/
theorem C9_null_root_swap (rs : Int) (s s2 : Bool) (o2 : Operator)
    (v v2 : Nat) (a2 : List BT) :
    (processNullRoot rs (.gate s .kNullGate v [.gate s2 o2 v2 a2])).2
        = .gate true o2 v2 a2
    ∧ (processNullRoot rs (.gate s .kNullGate v [.gate s2 o2 v2 a2])).1
        = (if s2 then rs else -rs)
    ∧ (∀ (sv : Bool) (iv : Nat),
        processNullRoot rs (.gate s .kNullGate v [.var sv iv])
          = (rs, .gate s .kNullGate v [.var sv iv])) := by
  refine ⟨rfl, ?_, fun sv iv => rfl⟩
  cases s2 <;> simp [processNullRoot]

end BT

/-- C3 counterexample: for this common node the destination count (0) is
strictly below the total multiplicity (2), yet ProcessCommonNode performs no
redundancy rewriting - it returns at the `num_dest == 0` guard, leaving the
graph untouched, while the claim mandates a rewrite (both AND parents
nullified). -/
theorem C3_counterexample :
    2 ≤ (parentsOf exGraphC3 10).length
    ∧ numDestOf exGraphC3 10 < multTotOf exGraphC3 10
    ∧ (processCommonNode exGraphC3 10).1 = false
    ∧ (processCommonNode exGraphC3 10).2 = exGraphC3 := by
  decide

theorem getGate_applyRedundant (g : BGraph) (node : Nat) (red : List Nat)
    (p : Nat) :
    getGate (applyRedundant g node red) p
      = (getGate g p).map
          (fun gd => if p ∈ red then rewriteRedundant gd node else gd) := by
  unfold getGate applyRedundant
  simp only
  induction g.gates with
  | nil => rfl
  | cons hd tl ih =>
    rcases hd with ⟨i, gd⟩
    rw [List.map_cons]
    by_cases hp : i = p
    · subst hp
      by_cases hr : i ∈ red <;>
        simp [List.find?_cons_of_pos, hr]
    · by_cases hr : i ∈ red <;>
        [skip; skip] <;>
        · rw [List.find?_cons_of_neg, List.find?_cons_of_neg]
          · exact ih
          · simp [hp]
          · simp [hr, hp]

theorem selectRedundant_aux (g : BGraph) (st : OptState) (dest0 : List Nat) :
    ∀ (ps : List Nat) (red0 d : List Nat), ps.Nodup →
      (∀ q ∈ ps, (q ∈ d ↔ q ∈ dest0)) →
      (ps.foldl
        (fun (acc : List Nat × List Nat) p =>
          if optiOf st p < 3 then
            if isOrGate g p && decide (p ∈ acc.2) then (acc.1, acc.2.erase p)
            else (acc.1 ++ [p], acc.2)
          else acc)
        (red0, d)).1
      = red0 ++ ps.filter (fun p => decide (optiOf st p < 3)
          && !(isOrGate g p && decide (p ∈ dest0))) := by
  intro ps
  induction ps with
  | nil => intro red0 d _ _; simp
  | cons p tl ih =>
    intro red0 d hnd hinv
    rw [List.nodup_cons] at hnd
    rw [List.foldl_cons, List.filter_cons]
    by_cases h3 : optiOf st p < 3
    · by_cases hor : (isOrGate g p && decide (p ∈ d)) = true
      · have hpd : p ∈ d := by
          rw [Bool.and_eq_true, decide_eq_true_eq] at hor
          exact hor.2
        have hpd0 : p ∈ dest0 := (hinv p (List.mem_cons_self p tl)).mp hpd
        have hpred : (decide (optiOf st p < 3)
            && !(isOrGate g p && decide (p ∈ dest0))) = false := by
          rw [Bool.and_eq_true, decide_eq_true_eq] at hor
          simp [h3, hor.1, hpd0]
        rw [if_pos h3, if_pos hor, hpred]
        simp only [Bool.false_eq_true, if_false]
        apply ih red0 (d.erase p) hnd.2
        intro q hq
        have hqp : q ≠ p := fun he => hnd.1 (he ▸ hq)
        rw [List.mem_erase_of_ne hqp]
        exact hinv q (List.mem_cons_of_mem p hq)
      · have hpred : (decide (optiOf st p < 3)
            && !(isOrGate g p && decide (p ∈ dest0))) = true := by
          have : (isOrGate g p && decide (p ∈ dest0)) = false := by
            rw [Bool.and_eq_true] at hor
            by_cases ho : isOrGate g p = true
            · have : p ∉ d := fun hpd => hor ⟨ho, decide_eq_true hpd⟩
              have : p ∉ dest0 :=
                fun hd0 => this ((hinv p (List.mem_cons_self p tl)).mpr hd0)
              simp [ho, this]
            · simp [Bool.eq_false_iff.mpr ho]
          simp [h3, this]
        rw [if_pos h3, if_neg hor, hpred]
        simp only [if_true]
        rw [ih (red0 ++ [p]) d hnd.2
          (fun q hq => hinv q (List.mem_cons_of_mem p hq))]
        simp
    · have hpred : (decide (optiOf st p < 3)
          && !(isOrGate g p && decide (p ∈ dest0))) = false := by
        simp [h3]
      rw [if_neg h3, hpred]
      simp only [Bool.false_eq_true, if_false]
      exact ih red0 d hnd.2 (fun q hq => hinv q (List.mem_cons_of_mem p hq))

/-- C3 (amended): the redundancy rewrite is invoked exactly when the node has
at least two parents and the destination count is at least one and strictly
below the total multiplicity (the parent count plus, for each failed
ancestor with more than one parent, its parent count); the rewritten
parents are those with opti value below 3, except OR parents that are
destinations (dropped from the destination set instead); each rewritten
parent is transformed by `rewriteRedundant` (AND nullified, OR drops the
argument degenerating to NULL at one argument, ATLEAST drops the argument
degenerating to AND at the vote number). -/
theorem C3_redundancy_rewriting (g : BGraph) (node : Nat) :
    ((processCommonNode g node).1 = true ↔
      (2 ≤ (parentsOf g node).length ∧ 1 ≤ numDestOf g node
        ∧ numDestOf g node < multTotOf g node))
    ∧ ((processCommonNode g node).1 = true →
        (processCommonNode g node).2
          = processFailureDest
              (applyRedundant g node
                (selectRedundant g (destData g node).1 node
                  (destData g node).2.1).1)
              node
              (selectRedundant g (destData g node).1 node
                (destData g node).2.1).2)
    ∧ (∀ (st : OptState) (dest : List Nat), (parentsOf g node).Nodup →
        dest.Nodup →
        (selectRedundant g st node dest).1
          = (parentsOf g node).filter (fun p =>
              decide (optiOf st p < 3)
                && !(isOrGate g p && decide (p ∈ dest))))
    ∧ (∀ (red : List Nat) (p : Nat),
        getGate (applyRedundant g node red) p
          = (getGate g p).map
              (fun gd => if p ∈ red then rewriteRedundant gd node else gd)) := by
  have hnum : numDestOf g node = (destData g node).2.2 := rfl
  refine ⟨?_, ?_, ?_, ?_⟩
  · unfold processCommonNode
    by_cases h1 : (parentsOf g node).length ≤ 1
    · rw [if_pos h1]
      simp only [Bool.false_eq_true, false_iff]
      rintro ⟨h2, -, -⟩
      omega
    · rw [if_neg h1]
      by_cases h2 : (destData g node).2.2 = 0
      · rw [if_pos h2]
        simp only [Bool.false_eq_true, false_iff]
        rintro ⟨-, h3, -⟩
        rw [hnum] at h3
        omega
      · rw [if_neg h2]
        by_cases h3 : (destData g node).2.2 < multTotOf g node
        · rw [if_pos h3]
          simp only [true_iff]
          rw [hnum]
          refine ⟨by omega, by omega, h3⟩
        · rw [if_neg h3]
          simp only [Bool.false_eq_true, false_iff]
          rintro ⟨-, -, h4⟩
          rw [hnum] at h4
          omega
  · intro hflag
    unfold processCommonNode at hflag ⊢
    by_cases h1 : (parentsOf g node).length ≤ 1
    · rw [if_pos h1] at hflag
      exact absurd hflag (by simp)
    · rw [if_neg h1] at hflag ⊢
      by_cases h2 : (destData g node).2.2 = 0
      · rw [if_pos h2] at hflag
        exact absurd hflag (by simp)
      · rw [if_neg h2] at hflag ⊢
        by_cases h3 : (destData g node).2.2 < multTotOf g node
        · rw [if_pos h3]
        · rw [if_neg h3] at hflag
          exact absurd hflag (by simp)
  · intro st dest hnd hdn
    unfold selectRedundant
    exact selectRedundant_aux g st dest (parentsOf g node) [] dest hnd
      (fun q _ => Iff.rfl)
  · intro red p
    exact getGate_applyRedundant g node red p

/-- Witness for C3 (amended) at the counterexample graph. -/
theorem C3_redundancy_rewriting_witness :
    ((processCommonNode exGraphC3 10).1 = true ↔
      (2 ≤ (parentsOf exGraphC3 10).length ∧ 1 ≤ numDestOf exGraphC3 10
        ∧ numDestOf exGraphC3 10 < multTotOf exGraphC3 10))
    ∧ ((processCommonNode exGraphC3 10).1 = true →
        (processCommonNode exGraphC3 10).2
          = processFailureDest
              (applyRedundant exGraphC3 10
                (selectRedundant exGraphC3 (destData exGraphC3 10).1 10
                  (destData exGraphC3 10).2.1).1)
              10
              (selectRedundant exGraphC3 (destData exGraphC3 10).1 10
                (destData exGraphC3 10).2.1).2)
    ∧ (∀ (st : OptState) (dest : List Nat), (parentsOf exGraphC3 10).Nodup →
        dest.Nodup →
        (selectRedundant exGraphC3 st 10 dest).1
          = (parentsOf exGraphC3 10).filter (fun p =>
              decide (optiOf st p < 3)
                && !(isOrGate exGraphC3 p && decide (p ∈ dest))))
    ∧ (∀ (red : List Nat) (p : Nat),
        getGate (applyRedundant exGraphC3 10 red) p
          = (getGate exGraphC3 p).map
              (fun gd => if p ∈ red then rewriteRedundant gd 10 else gd)) :=
  C3_redundancy_rewriting exGraphC3 10

theorem findOriginalGate_pred (gd : IGate) (q : Nat × IGate) :
    (decide (q.2.type = gd.type) && decide (q.2.args = gd.args)
      && (!(decide (gd.type = .kAtleastGate)) || decide (q.2.vote = gd.vote)))
        = true
    ↔ specEquivalent q.2 gd := by
  unfold specEquivalent
  simp only [Bool.and_eq_true, Bool.or_eq_true, Bool.not_eq_true',
    decide_eq_true_eq, decide_eq_false_iff_not]
  constructor
  · rintro ⟨⟨ht, ha⟩, hv⟩
    refine ⟨ht, ha, fun hat => ?_⟩
    rcases hv with hv | hv
    · exact absurd (ht ▸ hat) hv
    · exact hv
  · rintro ⟨ht, ha, hv⟩
    refine ⟨⟨ht, ha⟩, ?_⟩
    by_cases hat : gd.type = .kAtleastGate
    · exact Or.inr (hv (ht.trans hat))
    · exact Or.inl hat

theorem multipleDefinitionsLoop_fixpoint : ∀ (fuel : Nat) (g g2 : BGraph),
    multipleDefinitionsLoop fuel g = some g2 → detectAllDuplicates g2 = [] := by
  intro fuel
  induction fuel with
  | zero =>
    intro g g2 h
    rw [multipleDefinitionsLoop] at h
    exact Option.noConfusion h
  | succ n ih =>
    intro g g2 h
    rw [multipleDefinitionsLoop] at h
    cases he : processMultipleDefinitionsStep g with
    | none =>
      rw [he] at h
      obtain rfl : g = g2 := Option.some.inj h
      by_cases hd : detectAllDuplicates g = []
      · exact hd
      · rw [processMultipleDefinitionsStep] at he
        simp only [hd, if_false] at he
        exact Option.noConfusion he
    | some g3 =>
      rw [he] at h
      exact ih g3 g2 h

/-- C4: gates are treated as equivalent exactly per the criterion (same
operator, same signed argument set, equal vote numbers for ATLEAST only);
a duplicate is replaced in a parent by the canonical original under the
same sign; and the detection-and-replacement pass is repeated until a pass
detects no duplicate. -/
theorem C4_multiple_definitions (seen : List (Nat × IGate)) (gd : IGate)
    (parent : IGate) (dupIdx origIdx : Nat) (s : Int)
    (hs : s = 1 ∨ s = -1) (hdup : s * (dupIdx : Int) ∈ parent.args)
    (hdup2 : -(s * (dupIdx : Int)) ∉ parent.args)
    (ho1 : (origIdx : Int) ∉ parent.args)
    (ho2 : -(origIdx : Int) ∉ parent.args)
    (fuel : Nat) (g g2 : BGraph)
    (hloop : multipleDefinitionsLoop fuel g = some g2) :
    ((findOriginalGate seen gd).isSome ↔ ∃ q ∈ seen, specEquivalent q.2 gd)
    ∧ (∀ q, findOriginalGate seen gd = some q → specEquivalent q.2 gd)
    ∧ ((replaceDupInParent parent dupIdx origIdx).args
        = insert (s * (origIdx : Int))
            (parent.args.erase (s * (dupIdx : Int)))
      ∧ (replaceDupInParent parent dupIdx origIdx).state = parent.state)
    ∧ detectAllDuplicates g2 = [] := by
  refine ⟨?_, ?_, ?_, multipleDefinitionsLoop_fixpoint fuel g g2 hloop⟩
  · unfold findOriginalGate
    rw [List.find?_isSome]
    constructor
    · rintro ⟨q, hq, hp⟩
      exact ⟨q, hq, (findOriginalGate_pred gd q).mp hp⟩
    · rintro ⟨q, hq, hp⟩
      exact ⟨q, hq, (findOriginalGate_pred gd q).mpr hp⟩
  · intro q hq
    unfold findOriginalGate at hq
    have hp := List.find?_some hq
    exact (findOriginalGate_pred gd q).mp hp
  · rcases hs with rfl | rfl
    · rw [one_mul] at hdup hdup2
      have hsign : (if -(dupIdx : Int) ∈ parent.args then (-1 : Int) else 1)
          = 1 := if_neg hdup2
      have h1 : (origIdx : Int) ∉ parent.args.erase (dupIdx : Int) :=
        fun hm => ho1 (Finset.mem_of_mem_erase hm)
      have h2 : -(origIdx : Int) ∉ parent.args.erase (dupIdx : Int) :=
        fun hm => ho2 (Finset.mem_of_mem_erase hm)
      unfold replaceDupInParent IGate.addArg
      simp only [hsign, one_mul]
      rw [if_neg h1, if_neg h2]
      exact ⟨rfl, rfl⟩
    · rw [neg_one_mul] at hdup hdup2
      rw [neg_neg] at hdup2
      have hsign : (if -(dupIdx : Int) ∈ parent.args then (-1 : Int) else 1)
          = -1 := if_pos hdup
      have h1 : -(origIdx : Int) ∉ parent.args.erase (-(dupIdx : Int)) :=
        fun hm => ho2 (Finset.mem_of_mem_erase hm)
      have h2 : -(-(origIdx : Int)) ∉ parent.args.erase (-(dupIdx : Int)) := by
        rw [neg_neg]
        exact fun hm => ho1 (Finset.mem_of_mem_erase hm)
      unfold replaceDupInParent IGate.addArg
      simp only [hsign, neg_one_mul]
      rw [if_neg h1, if_neg h2]
      exact ⟨rfl, rfl⟩

/-- Witness for C4 at concrete gates and a duplicate-free graph. -/
theorem C4_multiple_definitions_witness :
    ((findOriginalGate exSeenC4 exGateC4).isSome ↔
      ∃ q ∈ exSeenC4, specEquivalent q.2 exGateC4)
    ∧ (∀ q, findOriginalGate exSeenC4 exGateC4 = some q →
        specEquivalent q.2 exGateC4)
    ∧ ((replaceDupInParent exParentC4 5 8).args
        = insert ((1 : Int) * ((8 : Nat) : Int))
            (exParentC4.args.erase ((1 : Int) * ((5 : Nat) : Int)))
      ∧ (replaceDupInParent exParentC4 5 8).state = exParentC4.state)
    ∧ detectAllDuplicates exGraphC3 = [] :=
  C4_multiple_definitions exSeenC4 exGateC4 exParentC4 5 8 1
    (Or.inl rfl) (by decide) (by decide) (by decide) (by decide)
    1 exGraphC3 exGraphC3 (by decide)

theorem foldl_orElse_some (f : (Nat × List Nat) → Option MError) :
    ∀ (l : List (Nat × List Nat)) (acc : Option MError) (e : MError),
      l.foldl (fun a x => a <|> f x) acc = some e →
      acc = some e ∨ ∃ x ∈ l, f x = some e := by
  intro l
  induction l with
  | nil => intro acc e h; exact Or.inl h
  | cons hd tl ih =>
    intro acc e h
    rw [List.foldl_cons] at h
    rcases ih _ e h with h2 | ⟨x, hx, hfx⟩
    · cases acc with
      | none =>
        right
        refine ⟨hd, List.mem_cons_self hd tl, ?_⟩
        simpa using h2
      | some a =>
        left
        simpa using h2
    · exact Or.inr ⟨x, List.mem_cons_of_mem hd hx, hfx⟩

theorem foldl_orElse_none (f : (Nat × List Nat) → Option MError) :
    ∀ (l : List (Nat × List Nat)) (acc : Option MError),
      (∀ x ∈ l, f x = none) →
      l.foldl (fun a x => a <|> f x) acc = acc := by
  intro l
  induction l with
  | nil => intro acc _; rfl
  | cons hd tl ih =>
    intro acc hnone
    rw [List.foldl_cons]
    have h1 : f hd = none := hnone hd (List.mem_cons_self hd tl)
    have h2 : (acc <|> f hd) = acc := by
      cases acc <;> simp [h1]
    rw [h2]
    exact ih acc (fun x hx => hnone x (List.mem_cons_of_mem hd hx))

/-- C7 counterexample: on the two-gate cyclic model the boundary raises
ValidationError carrying the cycle path, not CycleError. -/
theorem C7_counterexample :
    checkFirstLayerCycles exModelC7
      = some (.validationError "Detected a cycle" [1, 2, 1])
    ∧ (∀ path, checkFirstLayerCycles exModelC7 ≠ some (.cycleError path)) := by
  have h1 : checkFirstLayerCycles exModelC7
      = some (.validationError "Detected a cycle" [1, 2, 1]) := by decide
  refine ⟨h1, fun path h => ?_⟩
  rw [h1] at h
  simp at h

/-- C7 (amended): when the cycle detection finds a cycle during the first
validation layer, a ValidationError carrying the cycle path is raised (not
CycleError); when the detection finds none, the check raises nothing. -/
theorem C7_cycle_check (m : CModel) :
    (∀ e, checkFirstLayerCycles m = some e →
      ∃ gi path, detectCycle m gi = some path
        ∧ e = .validationError "Detected a cycle" path)
    ∧ ((∀ p ∈ m.gates, detectCycle m p.1 = none) →
        checkFirstLayerCycles m = none) := by
  constructor
  · intro e h
    unfold checkFirstLayerCycles at h
    rcases foldl_orElse_some _ m.gates none e h with h2 | ⟨x, hx, hfx⟩
    · exact Option.noConfusion h2
    · cases hd : detectCycle m x.1 with
      | none => rw [hd] at hfx; exact Option.noConfusion hfx
      | some path =>
        rw [hd] at hfx
        exact ⟨x.1, path, hd, (Option.some.inj hfx).symm⟩
  · intro hall
    unfold checkFirstLayerCycles
    exact foldl_orElse_none _ m.gates none
      (fun x hx => by rw [hall x hx]; rfl)

/-- Witness for C7 (amended): the acyclic two-gate model passes the check. -/
theorem C7_cycle_check_witness : checkFirstLayerCycles exAcyclicC7 = none :=
  (C7_cycle_check exAcyclicC7).2 (by decide)

/-- C10: Gate::Validate accepts exactly the gates that either do not match
the AND-inhibit pattern or have two arguments with exactly one conditional
basic event; every rejection is a ValidationError. -/
theorem C10_gate_validate (g : MGate) :
    (gateValidate g = none ↔
      (¬ inhibitPattern g ∨
        (g.formula.numArgs = 2
          ∧ g.formula.eventArgs.countP isConditionalBasic = 1)))
    ∧ (∀ e, gateValidate g = some e →
        ∃ msg, e = .validationError msg []) := by
  have hcond : (¬(g.formula.type = .kAndGate)
      ∨ ¬(hasAttribute g.element "flavor" = true)
      ∨ ¬(getAttributeValue g.element "flavor" = "inhibit"))
      ↔ ¬ inhibitPattern g := by
    unfold inhibitPattern
    tauto
  unfold gateValidate
  by_cases hp : inhibitPattern g
  · rw [if_neg (by rw [hcond]; exact not_not_intro hp)]
    by_cases hn : g.formula.numArgs = 2
    · rw [if_neg (by simp [hn])]
      by_cases hc : g.formula.eventArgs.countP isConditionalBasic = 1
      · rw [if_neg (by simp [hc])]
        refine ⟨⟨fun _ => Or.inr ⟨hn, hc⟩, fun _ => rfl⟩, ?_⟩
        intro e he
        exact Option.noConfusion he
      · rw [if_pos hc]
        constructor
        · constructor
          · intro h
            exact Option.noConfusion h
          · rintro (h | ⟨-, h2⟩)
            · exact absurd hp h
            · exact absurd h2 hc
        · intro e he
          exact ⟨g.element.name ++ " : INHIBIT gate must have" ++
            " exactly one conditional event.", (Option.some.inj he).symm⟩
    · rw [if_pos hn]
      constructor
      · constructor
        · intro h
          exact Option.noConfusion h
        · rintro (h | ⟨h2, -⟩)
          · exact absurd hp h
          · exact absurd h2 hn
      · intro e he
        exact ⟨g.element.name ++ "INHIBIT gate must have only 2 children",
          (Option.some.inj he).symm⟩
  · rw [if_pos (hcond.mpr hp)]
    refine ⟨⟨fun _ => Or.inl hp, fun _ => rfl⟩, ?_⟩
    intro e he
    exact Option.noConfusion he

/-- Witness for C10: the well-formed inhibit gate passes validation. -/
theorem C10_gate_validate_witness : gateValidate exGateC10 = none :=
  (C10_gate_validate exGateC10).1.mpr (Or.inr ⟨by decide, by decide⟩)

end Scram
